import Mathlib

/-!
# Verification of the phaseflow `abstract_simulation` time-stepping engine

A shallow embedding of `phaseflow/abstract_simulation.py` (class
`AbstractSimulation` plus the module-level function `share_solver_parameters`).

Modelling choices:

* Python floats are embedded as exact rationals `ℚ`; every numeric value used
  by the claims is a small dyadic rational, so the arithmetic is exact.
* `fenics.Constant` objects and `fenics.Function` coefficient vectors are
  mutable and may be aliased between engines, so they live in an explicit
  heap (`Store`) and engine records hold allocation indices into it.
  Every operation threads the store.
* A mesh is identified by a `Nat`; `fenics.FunctionSpace(mesh, element)` for
  the simulation's fixed element is identified with the mesh id, and the
  number of dofs of that space is given by `Problem.dofCount`.
* The abstract methods a subclass must supply (`initial_mesh`, `element`,
  `governing_form`, `adaptive_goal`, ...) and the behaviour of the external
  FEniCS solvers are bundled into a `Problem` record; the nonlinear solve is
  an oracle mapping the current coefficient vector to a new vector plus a
  convergence result, mirroring that the solver mutates the bound solution
  function in place and either returns an iteration count or raises.
* Solver parameter bags (`fenics.Parameters`) are nested string-keyed trees
  (`Params`); `.parameters.copy()` is a value copy, so bags are stored by
  value in the engine record.
* Python exceptions are modelled with `Except PhErr`; an operation that can
  raise returns the state as it is at the raise point together with the error,
  so that post-failure state is observable.
* `setup_count` is a ghost field: it is incremented by `setup_solver` and read
  by nothing, existing only to count rebuilds in theorems.
-/

set_option maxHeartbeats 1000000

namespace Phaseflow

/-- Dof-coefficient vector of a `fenics.Function`, exact rationals standing for
the float entries. -/
abbrev Vec := List ℚ

/-- A freshly constructed `fenics.Function` has an all-zero coefficient vector. -/
def zeros (n : Nat) : Vec := List.replicate n 0

/-- Explicit heap of mutable FEniCS objects: `fenics.Constant` cells and
`fenics.Function` coefficient vectors, addressed by allocation index. -/
structure Store where
  constants : List ℚ
  vectors : List Vec
deriving DecidableEq

def Store.empty : Store := ⟨[], []⟩

def Store.allocConst (σ : Store) (v : ℚ) : Store × Nat :=
  (⟨σ.constants ++ [v], σ.vectors⟩, σ.constants.length)

def Store.readConst (σ : Store) (i : Nat) : ℚ := σ.constants.getD i 0

def Store.writeConst (σ : Store) (i : Nat) (v : ℚ) : Store :=
  ⟨σ.constants.set i v, σ.vectors⟩

def Store.allocVec (σ : Store) (v : Vec) : Store × Nat :=
  (⟨σ.constants, σ.vectors ++ [v]⟩, σ.vectors.length)

def Store.readVec (σ : Store) (i : Nat) : Vec := σ.vectors.getD i []

def Store.writeVec (σ : Store) (i : Nat) (v : Vec) : Store :=
  ⟨σ.constants, σ.vectors.set i v⟩

/-- A `fenics.Function`: its function space and the heap index of its
coefficient vector. -/
structure FuncRef where
  space : Nat
  vec : Nat
deriving DecidableEq, Inhabited

/-- `solver_status["iterations"]` is an `int` after a plain solve and the
string `"NA"` after an adaptive solve. -/
inductive IterCount where
  | count : Nat → IterCount
  | na : IterCount
deriving DecidableEq

/-- The `solver_status` dictionary `{"iterations": ..., "solved": ...}`. -/
structure SolverStatus where
  iterations : IterCount
  solved : Bool
deriving DecidableEq

/-- Modelled from the spec: a `fenics.Parameters` bag is a nested tree of
string-keyed scalar parameters and nested parameter subgroups (the fenics
library itself is not under `src/`). -/
inductive Params where
  | scalar : ℚ → Params
  | group : List (String × Params) → Params

/-- Python exceptions observable through the engine's control flow. -/
inductive PhErr where
  | notImplementedError
  | keyError
  | typeError
  | attributeError
  | solverError
deriving DecidableEq

/-- State of one `AbstractSimulation` instance (`__init__`, lines 38-76). -/
structure Engine where
  time_order : Nat
  times : List ℚ
  timestep_sizes : List Nat
  mesh : Nat
  function_space : Nat
  solutions : List FuncRef
  newton_solution : FuncRef
  solver : Option Params
  adaptive_solver : Option Params
  solver_status : SolverStatus
  solver_needs_setup : Bool
  setup_count : Nat

/-- The subclass-supplied problem definition together with the behaviour of the
external FEniCS engine, as seen through this module's control flow:
`initial_mesh()`, the dof count of `FunctionSpace(mesh, element)`, whether
`adaptive_goal()` returns a goal, the parameter bags of freshly constructed
solvers, and the two solve oracles.  `pointSolve` maps the current coefficient
vector to the mutated vector plus `some iterations` on convergence or `none`
when the Newton solver raises; `adaptiveSolve` likewise, with a goal tolerance
and only a success flag (it returns no status). -/
structure Problem where
  initialMesh : Nat
  dofCount : Nat → Nat
  hasAdaptiveGoal : Bool
  defaultSolverParams : Params
  defaultAdaptiveParams : Params
  pointSolve : Vec → Vec × Option Nat
  adaptiveSolve : ℚ → Vec → Vec × Bool

/-- `setup_solver` (lines 147-201): rebuilds form/problem/solvers.  A newly
constructed solver carries the default parameter bag; if a prior solver existed
its bag is copied over the new one (`self.solver.parameters = solver_parameters.copy()`),
likewise for the adaptive solver when an adaptive goal is defined.  Clears
`solver_needs_setup` and bumps the ghost rebuild counter. -/
def setup_solver (P : Problem) (e : Engine) : Engine :=
  let sparams := match e.solver with
    | some p => p
    | none => P.defaultSolverParams
  let aparams := if P.hasAdaptiveGoal then
      some (match e.adaptive_solver with
        | some p => p
        | none => P.defaultAdaptiveParams)
    else e.adaptive_solver
  { e with solver := some sparams, adaptive_solver := aparams,
           solver_needs_setup := false, setup_count := e.setup_count + 1 }

/-- Allocate `n` fresh `fenics.Constant` cells each holding `v`. -/
def allocConsts (v : ℚ) : Nat → Store → Store × List Nat
  | 0, σ => (σ, [])
  | n + 1, σ =>
    let (σ, i) := σ.allocConst v
    let (σ, rest) := allocConsts v n σ
    (σ, i :: rest)

/-- Allocate `n` fresh `fenics.Function`s on function space `fs` with `dof`
dofs (zero-initialised). -/
def allocFuncs (fs dof : Nat) : Nat → Store → Store × List FuncRef
  | 0, σ => (σ, [])
  | n + 1, σ =>
    let (σ, i) := σ.allocVec (zeros dof)
    let (σ, rest) := allocFuncs fs dof n σ
    (σ, ⟨fs, i⟩ :: rest)

/-- `__init__(time_order, integration_measure, setup_solver)` (lines 38-76). -/
def init (P : Problem) (time_order : Nat) (doSetup : Bool) (σ : Store) :
    Store × Engine :=
  let (σ, dts) := allocConsts 1 time_order σ
  let mesh := P.initialMesh
  let (σ, sols) := allocFuncs mesh (P.dofCount mesh) (time_order + 1) σ
  let (σ, nvec) := σ.allocVec (zeros (P.dofCount mesh))
  let e : Engine :=
    { time_order := time_order
      times := List.replicate (time_order + 1) 0
      timestep_sizes := dts
      mesh := mesh
      function_space := mesh
      solutions := sols
      newton_solution := ⟨mesh, nvec⟩
      solver := none
      adaptive_solver := none
      solver_status := ⟨.count 0, false⟩
      solver_needs_setup := true
      setup_count := 0 }
  (σ, if doSetup then setup_solver P e else e)

/-- `reinit_solutions` (lines 139-145): rebuild the function space for the
current mesh and replace every solution slot with a fresh function on it. -/
def reinit_solutions (P : Problem) (σ : Store) (e : Engine) : Store × Engine :=
  let fs := e.mesh
  let (σ, sols) := allocFuncs fs (P.dofCount e.mesh) e.solutions.length σ
  (σ, { e with function_space := fs, solutions := sols })

/-- The `mesh` property setter (lines 88-95): store the new mesh, mark the
solver dirty, and reinitialise the solutions. -/
def set_mesh (P : Problem) (m : Nat) (σ : Store) (e : Engine) : Store × Engine :=
  reinit_solutions P σ { e with mesh := m, solver_needs_setup := true }

/-- `advance` (lines 235-250): shift solutions, times and step sizes one slot
back.  Note the step-size shift is an in-place `fenics.Constant.assign` on the
cell referenced by slot 1. -/
def advance (σ : Store) (e : Engine) : Store × Engine :=
  if 1 < e.time_order then
    let σ1 := σ.writeVec (e.solutions.getD 2 default).vec
      (σ.readVec (e.solutions.getD 1 default).vec)
    let e1 := { e with times := e.times.set 2 (e.times.getD 1 0) }
    let σ2 := σ1.writeConst (e.timestep_sizes.getD 1 0)
      (σ1.readConst (e.timestep_sizes.getD 0 0))
    let σ3 := σ2.writeVec (e.solutions.getD 1 default).vec
      (σ2.readVec (e.solutions.getD 0 default).vec)
    (σ3, { e1 with times := e1.times.set 1 (e1.times.getD 0 0) })
  else
    let σ3 := σ.writeVec (e.solutions.getD 1 default).vec
      (σ.readVec (e.solutions.getD 0 default).vec)
    (σ3, { e with times := e.times.set 1 (e.times.getD 0 0) })

/-- First-match lookup among the entries of a parameter group. -/
def lookupEntry : List (String × Params) → String → Option Params
  | [], _ => none
  | (k, v) :: rest, key => if k = key then some v else lookupEntry rest key

/-- Replace the first entry with the given key (no-op when absent). -/
def replaceEntry : List (String × Params) → String → Params → List (String × Params)
  | [], _, _ => []
  | (k, v) :: rest, key, nv =>
    if k = key then (k, nv) :: rest else (k, v) :: replaceEntry rest key nv

/-- `parameters[key]`: indexing a bag; `none` models a raised `KeyError`. -/
def getEntry : Params → String → Option Params
  | .scalar _, _ => none
  | .group es, key => lookupEntry es key

def setEntry : Params → String → Params → Params
  | .scalar q, _, _ => .scalar q
  | .group es, key, nv => .group (replaceEntry es key nv)

/-- Modelled from the spec: the fenics `Parameters.__setitem__` used by
`share_solver_parameters` (the fenics library is not under `src/`).  Direct
assignment `dst[key] = v` succeeds only when `key` names an existing scalar
parameter of `dst` and `v` is a scalar; assigning a whole parameter subgroup,
or assigning to an absent key, is rejected with `KeyError` (`none`). -/
def trySet (dst : Params) (key : String) (v : Params) : Option Params :=
  match v with
  | .group _ => none
  | .scalar q =>
    match getEntry dst key with
    | some (.scalar _) => some (setEntry dst key (.scalar q))
    | _ => none

mutual

/-- `share_solver_parameters` (lines 517-532): for each key of the source bag,
try direct assignment into the destination; on the resulting `KeyError`,
recurse into the destination subgroup under that key.  Indexing an absent key
during that recursion raises an uncaught `KeyError`. -/
def share_solver_parameters (dst : Params) (src : Params) : Except PhErr Params :=
  match src with
  | .scalar _ => .error .typeError
  | .group es => shareEntries dst es

/-- The `for key in share_from_parameters` loop of `share_solver_parameters`. -/
def shareEntries (dst : Params) (es : List (String × Params)) : Except PhErr Params :=
  match es with
  | [] => .ok dst
  | (key, v) :: rest =>
    match trySet dst key v with
    | some dst2 => shareEntries dst2 rest
    | none =>
      match getEntry dst key with
      | none => .error .keyError
      | some sub =>
        match share_solver_parameters sub v with
        | .error er => .error er
        | .ok sub2 => shareEntries (setEntry dst key sub2) rest

end

/-- The key of the adaptive solver's nested point-solver configuration group,
`"nonlinear_variational_solver"`. -/
def nvSolverKey : String := "nonlinear_variational_solver"

/-- The adaptive branch of `solve` (lines 222-224): push the point solver's
bag into the adaptive solver's nested point-solver parameter group, returning
the updated adaptive bag.  Accessing a missing attribute or key raises. -/
def shareIntoAdaptive (e : Engine) : Except PhErr Params :=
  match e.adaptive_solver, e.solver with
  | some ap, some sp =>
    match getEntry ap nvSolverKey with
    | none => .error .keyError
    | some sub =>
      match share_solver_parameters sub sp with
      | .error er => .error er
      | .ok sub2 => .ok (setEntry ap nvSolverKey sub2)
  | _, _ => .error .attributeError

/-- `solve(goal_tolerance)` (lines 204-233): rebuild if dirty, set
`t0 := t1 + float(dt0)`, then run the plain or adaptive solver.  The returned
store/engine are the state at return or at the point an exception propagates;
`solver_status` is only written on a successful solve. -/
def solve (P : Problem) (goalTol : Option ℚ) (σ : Store) (e : Engine) :
    Store × Engine × Except PhErr SolverStatus :=
  let e := if e.solver_needs_setup then setup_solver P e else e
  let t0 := e.times.getD 1 0 + σ.readConst (e.timestep_sizes.getD 0 0)
  let e := { e with times := e.times.set 0 t0 }
  match goalTol with
  | none =>
    let u0 := (e.solutions.getD 0 default).vec
    let (u2, res) := P.pointSolve (σ.readVec u0)
    let σ := σ.writeVec u0 u2
    match res with
    | none => (σ, e, .error .solverError)
    | some iters =>
      let e := { e with solver_status := ⟨.count iters, true⟩ }
      (σ, e, .ok e.solver_status)
  | some tol =>
    match shareIntoAdaptive e with
    | .error er => (σ, e, .error er)
    | .ok ap2 =>
      let e := { e with adaptive_solver := some ap2 }
      let u0 := (e.solutions.getD 0 default).vec
      let (u2, ok) := P.adaptiveSolve tol (σ.readVec u0)
      let σ := σ.writeVec u0 u2
      if ok then
        let e := { e with solver_status := ⟨.na, true⟩ }
        (σ, e, .ok e.solver_status)
      else (σ, e, .error .solverError)

/-- One symbolic discrete time-derivative expression per solution component.
Modelled from the spec: the constructors stand for the expressions built by
`phaseflow.backward_difference_formulas.apply_backward_euler` and
`apply_bdf2`, whose module is not under `src/`; this file only dispatches on
the time order and passes the operands through. -/
inductive DerivTerm where
  | backwardEuler (dt wnp1 wn : ℚ)
  | bdf2 (dt0 dt1 wnp1 wn wnm1 : ℚ)
deriving DecidableEq

/-- `time_discrete_terms` (lines 253-281).  `fenics.split` of a solution is
modelled as its component list; time order 1 yields backward-Euler terms,
order 2 yields BDF2 terms, order above 2 raises `NotImplementedError`
(the spec's `UnsupportedTimeOrder`), and order 0 falls through every branch
and returns Python's implicit `None`. -/
def time_discrete_terms (σ : Store) (e : Engine) :
    Except PhErr (Option (List DerivTerm)) :=
  let wnp1 := σ.readVec (e.solutions.getD 0 default).vec
  let wn := σ.readVec (e.solutions.getD 1 default).vec
  if e.time_order = 1 then
    .ok (some ((List.range wn.length).map fun i =>
      .backwardEuler (σ.readConst (e.timestep_sizes.getD 0 0))
        (wnp1.getD i 0) (wn.getD i 0)))
  else
    let wnm1 := σ.readVec (e.solutions.getD 2 default).vec
    if e.time_order = 2 then
      .ok (some ((List.range wn.length).map fun i =>
        .bdf2 (σ.readConst (e.timestep_sizes.getD 0 0))
          (σ.readConst (e.timestep_sizes.getD 1 0))
          (wnp1.getD i 0) (wn.getD i 0) (wnm1.getD i 0)))
    else if 2 < e.time_order then
      .error .notImplementedError
    else
      .ok none

/-- The per-slot copy loop of `deepcopy` (lines 361-367): allocate a fresh
function on the copy's space, copy the source slot's coefficient values into
it, and copy the source's time value. -/
def copySlots (P : Problem) (src : Engine) :
    List Nat → Store → Engine → Store × Engine
  | [], σ, sim => (σ, sim)
  | i :: rest, σ, sim =>
    let (σ, v) := σ.allocVec (zeros (P.dofCount sim.mesh))
    let sim := { sim with solutions := sim.solutions.set i ⟨sim.function_space, v⟩ }
    let σ := σ.writeVec v (σ.readVec (src.solutions.getD i default).vec)
    let sim := { sim with times := sim.times.set i (src.times.getD i 0) }
    copySlots P src rest σ sim

/-- `deepcopy` (lines 347-377): fresh engine of the same time order built with
`setup_solver = False`, mesh cloned, solution values and times copied
slot-by-slot — but `sim._timestep_sizes[i] = self._timestep_sizes[i]` copies
the `fenics.Constant` *references*, aliasing the step-size cells.  Finally the
solver is set up and its parameter bag copied from the source
(`self.solver.parameters` raises `AttributeError` when the source was never
set up). -/
def deepcopy (P : Problem) (σ : Store) (e : Engine) :
    Except PhErr (Store × Engine) :=
  match e.solver with
  | none => .error .attributeError
  | some sparams =>
    let (σ, sim) := init P e.time_order false σ
    let sim := { sim with mesh := e.mesh }
    let sim := { sim with function_space := sim.mesh }
    let (σ, sim) := copySlots P e (List.range e.solutions.length) σ sim
    let dts := (List.range e.timestep_sizes.length).foldl
      (fun l i => l.set i (e.timestep_sizes.getD i 0)) sim.timestep_sizes
    let sim := { sim with timestep_sizes := dts }
    let sim := setup_solver P sim
    let sim := { sim with solver := some sparams }
    .ok (σ, sim)

/-- A checkpoint file: the stored mesh plus the HDF5 datasets keyed by their
string tags (both solution coefficient vectors and the length-1 time arrays
are numeric arrays). -/
structure Checkpoint where
  mesh : Nat
  datasets : List (String × Vec)

/-- Decimal digit character, as produced by Python's `str`. -/
def digitChar (d : Nat) : Char := Char.ofNat (48 + d)

/-- Python's `str(n)` for a natural number: its decimal rendering
(the character string of its base-10 digits; `str(0) = "0"`). -/
def natStr (n : Nat) : String :=
  if n = 0 then String.mk [digitChar 0]
  else String.mk (((Nat.digits 10 n).map digitChar).reverse)

/-- The dataset tag `"solution" + str(i)` used by `write_checkpoint`. -/
def solutionTag (i : Nat) : String := "solution" ++ natStr i

/-- The dataset tag `"time" + str(i)` used by `write_checkpoint`. -/
def timeTag (i : Nat) : String := "time" ++ natStr i

/-- The dataset-writing loop of `write_checkpoint` (lines 401-407), over the
given slot indices: each slot contributes its coefficient vector under
`solution<i>` and its time value as a length-1 array under `time<i>`. -/
def checkpointEntries (σ : Store) (e : Engine) : List Nat → List (String × Vec)
  | [] => []
  | i :: rest =>
    (solutionTag i, σ.readVec (e.solutions.getD i default).vec)
      :: (timeTag i, [e.times.getD i 0])
      :: checkpointEntries σ e rest

/-- `write_checkpoint` (lines 393-407): store the mesh of solution slot 0's
function space and one dataset per solution slot and per time value, for
`i in range(len(self._solutions))`. -/
def write_checkpoint (σ : Store) (e : Engine) : Checkpoint :=
  { mesh := (e.solutions.getD 0 default).space
    datasets := checkpointEntries σ e (List.range e.solutions.length) }

/-- HDF5 dataset lookup by tag; `none` models the error raised for a missing
tag. -/
def findTag : List (String × Vec) → String → Option Vec
  | [], _ => none
  | (k, v) :: rest, key => if k = key then some v else findTag rest key

/-- The reading loop of `read_checkpoint` (lines 422-438), over the given slot
indices: allocate a fresh function on the (already rebuilt) function space,
read the `solution<i>` dataset into it, and read the `time<i>` dataset into a
length-1 vector whose first entry becomes `_times[i]`. -/
def readSlots (P : Problem) (ck : Checkpoint) :
    List Nat → Store → Engine → Except PhErr (Store × Engine)
  | [], σ, e => .ok (σ, e)
  | i :: rest, σ, e =>
    let (σ1, v) := σ.allocVec (zeros (P.dofCount e.mesh))
    let e1 := { e with solutions := e.solutions.set i ⟨e.function_space, v⟩ }
    match findTag ck.datasets (solutionTag i) with
    | none => .error .keyError
    | some vals =>
      let σ2 := σ1.writeVec v vals
      match findTag ck.datasets (timeTag i) with
      | none => .error .keyError
      | some tvals =>
        readSlots P ck rest σ2 { e1 with times := e1.times.set i (tvals.getD 0 0) }

/-- `read_checkpoint` (lines 410-442): replace the mesh by the stored one,
rebuild the function space from the engine's fixed element, read every slot
for `i in range(self.time_order + 1)`, reallocate the Newton guess on the new
space, and set up the solver. -/
def read_checkpoint (P : Problem) (ck : Checkpoint) (σ : Store) (e : Engine) :
    Except PhErr (Store × Engine) :=
  let e := { e with mesh := ck.mesh }
  let e := { e with function_space := e.mesh }
  match readSlots P ck (List.range (e.time_order + 1)) σ e with
  | .error er => .error er
  | .ok (σ, e) =>
    let (σ, nvec) := σ.allocVec (zeros (P.dofCount e.mesh))
    let e := { e with newton_solution := ⟨e.function_space, nvec⟩ }
    .ok (σ, setup_solver P e)

/-! ## Concrete instances used by witnesses and counterexamples -/

/-- A small point-solver parameter bag, shaped like fenics's
`NonlinearVariationalSolver.parameters`. -/
def demoParams : Params :=
  Params.group
    [("symmetric", Params.scalar 0),
     ("newton_solver", Params.group
       [("maximum_iterations", Params.scalar 50),
        ("relaxation_parameter", Params.scalar 1)])]

/-- A small adaptive-solver bag with the nested
`nonlinear_variational_solver` subgroup. -/
def demoAdaptiveParams : Params :=
  Params.group
    [("max_iterations", Params.scalar 20),
     ("nonlinear_variational_solver", demoParams)]

/-- A concrete problem definition: one-dof spaces, no adaptive goal, a point
solver that converges in one iteration and keeps the solution values. -/
def demoProblem : Problem :=
  { initialMesh := 0
    dofCount := fun _ => 1
    hasAdaptiveGoal := false
    defaultSolverParams := demoParams
    defaultAdaptiveParams := demoAdaptiveParams
    pointSolve := fun v => (v, some 1)
    adaptiveSolve := fun _ v => (v, true) }

/-- A problem whose point solver converges from the zero state (mutating the
solution to `[1]`) and diverges from any other state, leaving garbage `[9]`
in the solution and raising. -/
def divergingProblem : Problem :=
  { demoProblem with
    pointSolve := fun v => if v = [0] then ([1], some 2) else ([9], none) }

/-- A fully set-up order-2 demo engine and its store. -/
def initA : Store × Engine := init demoProblem 2 true Store.empty

def σA : Store := initA.1

def engineA : Engine := initA.2

/-- `σA` after assigning the step size `dt0 := 1/2`
(`sim.timestep_size.assign(0.5)`). -/
def σA2 : Store := σA.writeConst (engineA.timestep_sizes.getD 0 0) (1/2)

/-- A fully set-up order-1 demo engine (over `divergingProblem`, which has the
same construction data as `demoProblem`) and its store. -/
def initB : Store × Engine := init divergingProblem 1 true Store.empty

def σB : Store := initB.1

def engineB : Engine := initB.2

/-- One successful `solve` over the diverging problem: starts at `[0]`, ends
solved with solution `[1]`. -/
def solveB1 : Store × Engine × Except PhErr SolverStatus :=
  solve divergingProblem none σB engineB

/-- `σA` after `sim.timestep_size.assign(2)`, so `dt0 = 2` while `dt1 = 1`. -/
def σC : Store := σA.writeConst (engineA.timestep_sizes.getD 0 0) 2

/-- The store after `engineA.deepcopy()` with `dt0 = 2` (the happy path of
`deepcopy`, whose `Except` wrapper is peeled here). -/
def σD : Store :=
  match deepcopy demoProblem σC engineA with
  | .ok (σ, _) => σ
  | .error _ => Store.empty

/-- The engine returned by `engineA.deepcopy()` with `dt0 = 2`. -/
def copyC : Engine :=
  match deepcopy demoProblem σC engineA with
  | .ok (_, c) => c
  | .error _ => engineA

/-- An order-3 engine, constructed with `setup_solver = False`. -/
def initC3 : Store × Engine := init demoProblem 3 false Store.empty

/-- The key `"symmetric"` of a scalar entry of `demoParams`. -/
def symmetricKey : String := "symmetric"

/-- A key absent from `demoParams`. -/
def missingKey : String := "missing"

/-- `demoParams` after a successful direct assignment of `5` to
`"symmetric"`. -/
def demoParamsSet : Params := setEntry demoParams symmetricKey (Params.scalar 5)

/-- First step of the order-2 scenario: `solve` with `dt0 = 1/2`. -/
def c4step1 : Store × Engine × Except PhErr SolverStatus :=
  solve demoProblem none σA2 engineA

/-- `advance()` between the two steps of the scenario. -/
def c4adv : Store × Engine := advance c4step1.1 c4step1.2.1

/-- Second step of the scenario: `solve` with `dt0 = 1/2` again. -/
def c4step2 : Store × Engine × Except PhErr SolverStatus :=
  solve demoProblem none c4adv.1 c4adv.2

/-! ## List and store lemmas -/

theorem getD_set_self {α : Type} (l : List α) (i : Nat) (v d : α)
    (h : i < l.length) : (l.set i v).getD i d = v := by
  induction l generalizing i with
  | nil => simp at h
  | cons a t ih =>
    cases i with
    | zero => rfl
    | succ j => simpa using ih j (by simpa using h)

theorem getD_mem {α : Type} (l : List α) (i : Nat) (d : α)
    (h : i < l.length) : l.getD i d ∈ l := by
  induction l generalizing i with
  | nil => simp at h
  | cons a t ih =>
    cases i with
    | zero => exact List.mem_cons_self a t
    | succ j => exact List.mem_cons_of_mem a (ih j (by simpa using h))

theorem getD_set_ne {α : Type} (l : List α) (i j : Nat) (v : α) (d : α)
    (h : i ≠ j) : (l.set i v).getD j d = l.getD j d := by
  induction l generalizing i j with
  | nil => rfl
  | cons a t ih =>
    cases i with
    | zero =>
      cases j with
      | zero => exact absurd rfl h
      | succ k => rfl
    | succ m =>
      cases j with
      | zero => rfl
      | succ k => simpa using ih m k (by omega)

theorem getD_append_left {α : Type} (l₁ l₂ : List α) (i : Nat) (d : α)
    (h : i < l₁.length) : (l₁ ++ l₂).getD i d = l₁.getD i d := by
  induction l₁ generalizing i with
  | nil => simp at h
  | cons a t ih =>
    cases i with
    | zero => rfl
    | succ j => simpa using ih j (by simpa using h)

theorem getD_append_length {α : Type} (l₁ : List α) (v d : α) :
    (l₁ ++ [v]).getD l₁.length d = v := by
  induction l₁ with
  | nil => rfl
  | cons a t ih => simp only [List.cons_append, List.length_cons, List.getD_cons_succ, ih]

theorem readVec_writeVec_self (σ : Store) (i : Nat) (v : Vec)
    (h : i < σ.vectors.length) : (σ.writeVec i v).readVec i = v :=
  getD_set_self σ.vectors i v [] h

theorem readVec_writeVec_ne (σ : Store) (i j : Nat) (v : Vec)
    (h : i ≠ j) : (σ.writeVec i v).readVec j = σ.readVec j :=
  getD_set_ne σ.vectors i j v [] h

theorem readConst_writeConst_self (σ : Store) (i : Nat) (v : ℚ)
    (h : i < σ.constants.length) : (σ.writeConst i v).readConst i = v :=
  getD_set_self σ.constants i v 0 h

theorem readConst_writeConst_ne (σ : Store) (i j : Nat) (v : ℚ)
    (h : i ≠ j) : (σ.writeConst i v).readConst j = σ.readConst j :=
  getD_set_ne σ.constants i j v 0 h

theorem readVec_writeConst (σ : Store) (i j : Nat) (v : ℚ) :
    (σ.writeConst i v).readVec j = σ.readVec j := rfl

theorem readConst_writeVec (σ : Store) (i j : Nat) (v : Vec) :
    (σ.writeVec i v).readConst j = σ.readConst j := rfl

theorem writeVec_vectors_length (σ : Store) (i : Nat) (v : Vec) :
    (σ.writeVec i v).vectors.length = σ.vectors.length := by
  simp [Store.writeVec]

theorem readVec_allocVec_old (σ : Store) (v : Vec) (j : Nat)
    (h : j < σ.vectors.length) :
    (σ.allocVec v).1.readVec j = σ.readVec j :=
  getD_append_left σ.vectors [v] j [] h

theorem readVec_allocVec_new (σ : Store) (v : Vec) :
    (σ.allocVec v).1.readVec (σ.allocVec v).2 = v :=
  getD_append_length σ.vectors v []

/-! ## Decimal tags: injectivity of Python's `str` and of the dataset tags -/

theorem digitChar_inj : ∀ a, a < 10 → ∀ b, b < 10 →
    digitChar a = digitChar b → a = b := by decide

theorem map_digitChar_inj : ∀ (l₁ l₂ : List Nat), (∀ d ∈ l₁, d < 10) →
    (∀ d ∈ l₂, d < 10) → l₁.map digitChar = l₂.map digitChar → l₁ = l₂ := by
  intro l₁
  induction l₁ with
  | nil =>
    intro l₂ _ _ h
    cases l₂ with
    | nil => rfl
    | cons b t => simp at h
  | cons a t ih =>
    intro l₂ h1 h2 h
    cases l₂ with
    | nil => simp at h
    | cons b t2 =>
      simp only [List.map_cons, List.cons.injEq] at h
      have ha : a = b := digitChar_inj a (h1 a (List.mem_cons_self a t))
        b (h2 b (List.mem_cons_self b t2)) h.1
      have ht : t = t2 := ih t2 (fun d hd => h1 d (List.mem_cons_of_mem a hd))
        (fun d hd => h2 d (List.mem_cons_of_mem b hd)) h.2
      rw [ha, ht]

theorem natStr_data (n : Nat) : (natStr n).data
    = if n = 0 then [digitChar 0]
      else ((Nat.digits 10 n).map digitChar).reverse := by
  unfold natStr
  split <;> rfl

theorem natStr_data_inj {m n : Nat}
    (h : (natStr m).data = (natStr n).data) : m = n := by
  rw [natStr_data, natStr_data] at h
  by_cases hm : m = 0 <;> by_cases hn : n = 0
  · rw [hm, hn]
  · exfalso
    rw [if_pos hm, if_neg hn] at h
    have hlen : (Nat.digits 10 n).length = 1 := by
      have := congrArg List.length h
      simpa using this.symm
    obtain ⟨d, hdig⟩ := List.length_eq_one.mp hlen
    rw [hdig] at h
    have hd0 : d = 0 := by
      have hmem : d ∈ Nat.digits 10 n := by
        rw [hdig]
        exact List.mem_cons_self d []
      have hlt : d < 10 := Nat.digits_lt_base (by norm_num) hmem
      have : digitChar 0 = digitChar d := by simpa using h
      exact (digitChar_inj 0 (by norm_num) d hlt this).symm
    have h4 := Nat.ofDigits_digits 10 n
    rw [hdig, hd0] at h4
    exact hn (by simpa [Nat.ofDigits] using h4.symm)
  · exfalso
    rw [if_neg hm, if_pos hn] at h
    have hlen : (Nat.digits 10 m).length = 1 := by
      have := congrArg List.length h
      simpa using this
    obtain ⟨d, hdig⟩ := List.length_eq_one.mp hlen
    rw [hdig] at h
    have hd0 : d = 0 := by
      have hmem : d ∈ Nat.digits 10 m := by
        rw [hdig]
        exact List.mem_cons_self d []
      have hlt : d < 10 := Nat.digits_lt_base (by norm_num) hmem
      have : digitChar d = digitChar 0 := by simpa using h
      exact digitChar_inj d hlt 0 (by norm_num) this
    have h4 := Nat.ofDigits_digits 10 m
    rw [hdig, hd0] at h4
    exact hm (by simpa [Nat.ofDigits] using h4.symm)
  · rw [if_neg hm, if_neg hn] at h
    have h2 := List.reverse_injective h
    have h3 := map_digitChar_inj _ _
      (fun d hd => Nat.digits_lt_base (by norm_num) hd)
      (fun d hd => Nat.digits_lt_base (by norm_num) hd) h2
    exact Nat.digits.injective 10 h3

theorem strAppend_data (s t : String) : (s ++ t).data = s.data ++ t.data := by
  cases s
  cases t
  rfl

theorem solutionTag_inj {i j : Nat} (h : solutionTag i = solutionTag j) :
    i = j := by
  have hd := congrArg String.data h
  rw [solutionTag, solutionTag, strAppend_data, strAppend_data] at hd
  exact natStr_data_inj (List.append_cancel_left hd)

theorem timeTag_inj {i j : Nat} (h : timeTag i = timeTag j) : i = j := by
  have hd := congrArg String.data h
  rw [timeTag, timeTag, strAppend_data, strAppend_data] at hd
  exact natStr_data_inj (List.append_cancel_left hd)

theorem solutionTag_ne_timeTag (i j : Nat) : solutionTag i ≠ timeTag j := by
  intro h
  have hd := congrArg String.data h
  rw [solutionTag, timeTag, strAppend_data, strAppend_data] at hd
  have h2 := congrArg List.head? hd
  have e1 : ("solution".data ++ (natStr i).data).head? = some 's' := rfl
  have e2 : ("time".data ++ (natStr j).data).head? = some 't' := rfl
  rw [e1, e2] at h2
  simp at h2

theorem timeTag_ne_solutionTag (i j : Nat) : timeTag i ≠ solutionTag j :=
  fun h => solutionTag_ne_timeTag j i h.symm

/-- Looking up `solution<i>` among the written datasets returns slot `i`'s
coefficient vector. -/
theorem findTag_entries_solution (σ : Store) (e : Engine) :
    ∀ (L : List Nat) (i : Nat), i ∈ L →
      findTag (checkpointEntries σ e L) (solutionTag i)
        = some (σ.readVec ((e.solutions.getD i default).vec)) := by
  intro L
  induction L with
  | nil =>
    intro i hi
    simp at hi
  | cons j rest ih =>
    intro i hi
    by_cases hj : j = i
    · subst hj
      simp [checkpointEntries, findTag]
    · have h1 : ¬ (solutionTag j = solutionTag i) :=
        fun hh => hj (solutionTag_inj hh)
      have h2 : ¬ (timeTag j = solutionTag i) := timeTag_ne_solutionTag j i
      simp only [checkpointEntries, findTag, if_neg h1, if_neg h2]
      exact ih i (by
        rcases List.mem_cons.mp hi with hh | hh
        · exact absurd hh.symm hj
        · exact hh)

/-- Looking up `time<i>` among the written datasets returns slot `i`'s time
value as a length-1 array. -/
theorem findTag_entries_time (σ : Store) (e : Engine) :
    ∀ (L : List Nat) (i : Nat), i ∈ L →
      findTag (checkpointEntries σ e L) (timeTag i)
        = some [e.times.getD i 0] := by
  intro L
  induction L with
  | nil =>
    intro i hi
    simp at hi
  | cons j rest ih =>
    intro i hi
    by_cases hj : j = i
    · subst hj
      have h1 : ¬ (solutionTag j = timeTag j) := solutionTag_ne_timeTag j j
      simp [checkpointEntries, findTag, if_neg h1]
    · have h1 : ¬ (solutionTag j = timeTag i) := solutionTag_ne_timeTag j i
      have h2 : ¬ (timeTag j = timeTag i) := fun hh => hj (timeTag_inj hh)
      simp only [checkpointEntries, findTag, if_neg h1, if_neg h2]
      exact ih i (by
        rcases List.mem_cons.mp hi with hh | hh
        · exact absurd hh.symm hj
        · exact hh)

/-- Specification of the reading loop `readSlots`: when every listed slot's
datasets are present, the loop succeeds, fills each listed slot with a fresh
function holding the stored values on the engine's (fixed, already rebuilt)
function space, restores each listed time value, and touches neither
pre-existing heap cells nor the other engine fields. -/
theorem readSlots_spec (P : Problem) (ck : Checkpoint) (sv : Nat → Vec)
    (tv : Nat → Vec) :
    ∀ (L : List Nat) (σ : Store) (e : Engine),
      L.Nodup →
      (∀ i ∈ L, i < e.solutions.length ∧ i < e.times.length
        ∧ findTag ck.datasets (solutionTag i) = some (sv i)
        ∧ findTag ck.datasets (timeTag i) = some (tv i)) →
      ∃ σ2 e2, readSlots P ck L σ e = .ok (σ2, e2)
        ∧ σ.vectors.length ≤ σ2.vectors.length
        ∧ (∀ k, k < σ.vectors.length → σ2.readVec k = σ.readVec k)
        ∧ σ2.constants = σ.constants
        ∧ e2.time_order = e.time_order
        ∧ e2.mesh = e.mesh
        ∧ e2.function_space = e.function_space
        ∧ e2.newton_solution = e.newton_solution
        ∧ e2.solver = e.solver
        ∧ e2.adaptive_solver = e.adaptive_solver
        ∧ e2.solver_needs_setup = e.solver_needs_setup
        ∧ e2.solutions.length = e.solutions.length
        ∧ e2.times.length = e.times.length
        ∧ (∀ j, j ∉ L →
            e2.solutions.getD j default = e.solutions.getD j default
            ∧ e2.times.getD j 0 = e.times.getD j 0)
        ∧ (∀ i ∈ L,
            (e2.solutions.getD i default).space = e.function_space
            ∧ (e2.solutions.getD i default).vec < σ2.vectors.length
            ∧ σ2.readVec ((e2.solutions.getD i default).vec) = sv i
            ∧ e2.times.getD i 0 = (tv i).getD 0 0) := by
  intro L
  induction L with
  | nil =>
    intro σ e _ _
    exact ⟨σ, e, rfl, le_refl _, fun k _ => rfl, rfl, rfl, rfl, rfl, rfl, rfl,
      rfl, rfl, rfl, rfl, fun j _ => ⟨rfl, rfl⟩,
      fun i hi => absurd hi (by simp)⟩
  | cons i rest ih =>
    intro σ e hnd hreq
    obtain ⟨hi1, hi2, hfs, hft⟩ := hreq i (List.mem_cons_self i rest)
    have hinr : i ∉ rest := (List.nodup_cons.mp hnd).1
    have hndr : rest.Nodup := (List.nodup_cons.mp hnd).2
    have hstep : readSlots P ck (i :: rest) σ e
        = readSlots P ck rest
            ((σ.allocVec (zeros (P.dofCount e.mesh))).1.writeVec
              (σ.allocVec (zeros (P.dofCount e.mesh))).2 (sv i))
            { e with
                solutions := e.solutions.set i
                  ⟨e.function_space,
                    (σ.allocVec (zeros (P.dofCount e.mesh))).2⟩,
                times := e.times.set i ((tv i).getD 0 0) } := by
      simp only [readSlots, hfs, hft]
    have hreqr : ∀ i2 ∈ rest,
        i2 < ({ e with
            solutions := e.solutions.set i
              ⟨e.function_space, (σ.allocVec (zeros (P.dofCount e.mesh))).2⟩,
            times := e.times.set i ((tv i).getD 0 0) }
              : Engine).solutions.length
        ∧ i2 < ({ e with
            solutions := e.solutions.set i
              ⟨e.function_space, (σ.allocVec (zeros (P.dofCount e.mesh))).2⟩,
            times := e.times.set i ((tv i).getD 0 0) } : Engine).times.length
        ∧ findTag ck.datasets (solutionTag i2) = some (sv i2)
        ∧ findTag ck.datasets (timeTag i2) = some (tv i2) := by
      intro i2 hi2r
      obtain ⟨hq1, hq2, hq3, hq4⟩ := hreq i2 (List.mem_cons_of_mem i hi2r)
      exact ⟨by simpa [List.length_set] using hq1,
        by simpa [List.length_set] using hq2, hq3, hq4⟩
    obtain ⟨σ2, e2, hrun, hle, hold, hcon, hord, hmesh, hfsp, hnew, hslv,
      hadp, hdirty, hslen, htlen, hframe, hmem⟩ := ih
        ((σ.allocVec (zeros (P.dofCount e.mesh))).1.writeVec
          (σ.allocVec (zeros (P.dofCount e.mesh))).2 (sv i))
        { e with
            solutions := e.solutions.set i
              ⟨e.function_space, (σ.allocVec (zeros (P.dofCount e.mesh))).2⟩,
            times := e.times.set i ((tv i).getD 0 0) }
        hndr hreqr
    have hblen : ((σ.allocVec (zeros (P.dofCount e.mesh))).1.writeVec
          (σ.allocVec (zeros (P.dofCount e.mesh))).2 (sv i)).vectors.length
        = σ.vectors.length + 1 := by
      simp [Store.writeVec, Store.allocVec]
    have hbold : ∀ k, k < σ.vectors.length →
        ((σ.allocVec (zeros (P.dofCount e.mesh))).1.writeVec
          (σ.allocVec (zeros (P.dofCount e.mesh))).2 (sv i)).readVec k
        = σ.readVec k := by
      intro k hk
      have h1 : (σ.allocVec (zeros (P.dofCount e.mesh))).2 ≠ k := by
        show σ.vectors.length ≠ k
        omega
      rw [readVec_writeVec_ne _ _ _ _ h1]
      exact readVec_allocVec_old σ _ k hk
    have hbnew : ((σ.allocVec (zeros (P.dofCount e.mesh))).1.writeVec
          (σ.allocVec (zeros (P.dofCount e.mesh))).2 (sv i)).readVec
          (σ.allocVec (zeros (P.dofCount e.mesh))).2
        = sv i := by
      exact readVec_writeVec_self _ _ _ (by simp [Store.allocVec])
    refine ⟨σ2, e2, hstep.trans hrun, by omega, ?_, by rw [hcon]; rfl, hord, hmesh,
      by rw [hfsp], by rw [hnew], by rw [hslv], by rw [hadp], by rw [hdirty],
      by rw [hslen]; simp [List.length_set],
      by rw [htlen]; simp [List.length_set], ?_, ?_⟩
    · intro k hk
      rw [hold k (by omega), hbold k hk]
    · intro j hj
      have hji : j ≠ i := fun hh => hj (hh ▸ List.mem_cons_self i rest)
      have hjr : j ∉ rest := fun hh => hj (List.mem_cons_of_mem i hh)
      obtain ⟨hf1, hf2⟩ := hframe j hjr
      constructor
      · rw [hf1]
        show (e.solutions.set i _).getD j default = _
        rw [getD_set_ne _ _ _ _ _ (Ne.symm hji)]
      · rw [hf2]
        show (e.times.set i _).getD j 0 = _
        rw [getD_set_ne _ _ _ _ _ (Ne.symm hji)]
    · intro i2 hi2m
      rcases List.mem_cons.mp hi2m with hii | hir
      · subst hii
        obtain ⟨hf1, hf2⟩ := hframe i2 hinr
        have hslot : e2.solutions.getD i2 default
            = ⟨e.function_space, (σ.allocVec (zeros (P.dofCount e.mesh))).2⟩ := by
          rw [hf1]
          show (e.solutions.set i2 _).getD i2 default = _
          exact getD_set_self _ _ _ _ hi1
        have htime : e2.times.getD i2 0 = (tv i2).getD 0 0 := by
          rw [hf2]
          show (e.times.set i2 _).getD i2 0 = _
          exact getD_set_self _ _ _ _ hi2
        rw [hslot]
        have hv2 : ((⟨e.function_space,
            (σ.allocVec (zeros (P.dofCount e.mesh))).2⟩ : FuncRef)).vec
            = σ.vectors.length := rfl
        refine ⟨rfl, ?_, ?_, htime⟩
        · rw [hv2]
          rw [hblen] at hle
          omega
        · rw [hv2]
          have hb2 : σ.vectors.length
              < ((σ.allocVec (zeros (P.dofCount e.mesh))).1.writeVec
                  (σ.allocVec (zeros (P.dofCount e.mesh))).2
                  (sv i2)).vectors.length := by
            rw [hblen]
            omega
          rw [hold _ hb2]
          exact hbnew
      · obtain ⟨hm1, hm2, hm3, hm4⟩ := hmem i2 hir
        exact ⟨hm1, hm2, hm3, hm4⟩

/-! ## Projection lemmas for `setup_solver` -/

theorem setup_solver_times (P : Problem) (e : Engine) :
    (setup_solver P e).times = e.times := rfl

theorem setup_solver_timestep_sizes (P : Problem) (e : Engine) :
    (setup_solver P e).timestep_sizes = e.timestep_sizes := rfl

theorem setup_solver_solutions (P : Problem) (e : Engine) :
    (setup_solver P e).solutions = e.solutions := rfl

theorem setup_solver_time_order (P : Problem) (e : Engine) :
    (setup_solver P e).time_order = e.time_order := rfl

theorem setup_solver_solver_status (P : Problem) (e : Engine) :
    (setup_solver P e).solver_status = e.solver_status := rfl

theorem setup_solver_clears_dirty (P : Problem) (e : Engine) :
    (setup_solver P e).solver_needs_setup = false := rfl

theorem setup_solver_setup_count (P : Problem) (e : Engine) :
    (setup_solver P e).setup_count = e.setup_count + 1 := rfl

/-- Specification of `allocFuncs`: it returns `n` fresh zero-initialised
functions on `fs`, extends the vector heap without touching existing cells,
and leaves the constants untouched. -/
theorem allocFuncs_spec (fs dof : Nat) :
    ∀ (n : Nat) (σ : Store),
      ((allocFuncs fs dof n σ).2).length = n
      ∧ (allocFuncs fs dof n σ).1.constants = σ.constants
      ∧ (allocFuncs fs dof n σ).1.vectors.length = σ.vectors.length + n
      ∧ (∀ k, k < σ.vectors.length →
          (allocFuncs fs dof n σ).1.readVec k = σ.readVec k)
      ∧ (∀ r ∈ (allocFuncs fs dof n σ).2, r.space = fs
          ∧ σ.vectors.length ≤ r.vec
          ∧ r.vec < (allocFuncs fs dof n σ).1.vectors.length
          ∧ (allocFuncs fs dof n σ).1.readVec r.vec = zeros dof) := by
  intro n
  induction n with
  | zero =>
    intro σ
    exact ⟨rfl, rfl, rfl, fun k _ => rfl, fun r hr => absurd hr (by simp [allocFuncs])⟩
  | succ m ih =>
    intro σ
    have hlen1 : ((σ.allocVec (zeros dof)).1).vectors.length
        = σ.vectors.length + 1 := by
      simp [Store.allocVec]
    obtain ⟨ihlen, ihcon, ihveclen, ihold, ihmem⟩ := ih (σ.allocVec (zeros dof)).1
    simp only [allocFuncs]
    refine ⟨by simpa using ihlen, by simpa using ihcon, ?_, ?_, ?_⟩
    · rw [ihveclen, hlen1]
      omega
    · intro k hk
      rw [ihold k (by omega)]
      exact readVec_allocVec_old σ (zeros dof) k hk
    · intro r hr
      rcases List.mem_cons.mp hr with hhead | htail
      · subst hhead
        refine ⟨rfl, le_refl _, ?_, ?_⟩
        · rw [ihveclen, hlen1]
          simp [Store.allocVec]
          omega
        · show (allocFuncs fs dof m (σ.allocVec (zeros dof)).1).1.readVec
              σ.vectors.length = zeros dof
          rw [ihold σ.vectors.length (by omega)]
          exact readVec_allocVec_new σ (zeros dof)
      · obtain ⟨hsp, hle, hlt, hread⟩ := ihmem r htail
        refine ⟨hsp, ?_, hlt, hread⟩
        rw [hlen1] at hle
        omega

/-- Two lists of equal length agreeing at every in-range `getD` are equal. -/
theorem eq_of_getD {α : Type} :
    ∀ (l₁ l₂ : List α) (d : α), l₁.length = l₂.length →
      (∀ j, j < l₁.length → l₁.getD j d = l₂.getD j d) → l₁ = l₂
  | [], [], _, _, _ => rfl
  | [], _ :: _, _, hlen, _ => by simp at hlen
  | _ :: _, [], _, hlen, _ => by simp at hlen
  | a :: t₁, b :: t₂, d, hlen, h => by
    have h0 : a = b := h 0 (by simp)
    have ht : t₁ = t₂ :=
      eq_of_getD t₁ t₂ d (by simpa using hlen)
        (fun j hj => h (j + 1) (by simpa using hj))
    rw [h0, ht]

/-- Effect of the index-by-index copying fold used by `deepcopy` for the
step-size slots. -/
theorem foldl_set_getD (src : List Nat) :
    ∀ (L : List Nat) (dst : List Nat),
      (L.foldl (fun l i => l.set i (src.getD i 0)) dst).length = dst.length
      ∧ (∀ j, j ∈ L → j < dst.length →
          (L.foldl (fun l i => l.set i (src.getD i 0)) dst).getD j 0
            = src.getD j 0)
      ∧ (∀ j, j ∉ L →
          (L.foldl (fun l i => l.set i (src.getD i 0)) dst).getD j 0
            = dst.getD j 0) := by
  intro L
  induction L with
  | nil => exact fun dst => ⟨rfl, fun j hj _ => absurd hj (by simp), fun j _ => rfl⟩
  | cons i rest ih =>
    intro dst
    obtain ⟨ihlen, ihmem, ihout⟩ := ih (dst.set i (src.getD i 0))
    refine ⟨by simpa using ihlen, ?_, ?_⟩
    · intro j hj hjlen
      rcases List.mem_cons.mp hj with hji | hjr
      · subst hji
        by_cases hjr2 : j ∈ rest
        · exact ihmem j hjr2 (by simpa using hjlen)
        · rw [List.foldl_cons, ihout j hjr2, getD_set_self _ _ _ _ hjlen]
      · exact ihmem j hjr (by simpa using hjlen)
    · intro j hj
      have hji : i ≠ j := fun hh => hj (hh ▸ List.mem_cons_self i rest)
      have hjr : j ∉ rest := fun hh => hj (List.mem_cons_of_mem i hh)
      rw [List.foldl_cons, ihout j hjr, getD_set_ne _ _ _ _ _ hji]

/-- Replacing an existing entry makes the lookup return the new value. -/
theorem lookupEntry_replaceEntry (key : String) (nv : Params) :
    ∀ (es : List (String × Params)) (old : Params),
      lookupEntry es key = some old →
      lookupEntry (replaceEntry es key nv) key = some nv := by
  intro es
  induction es with
  | nil =>
    intro old h
    simp [lookupEntry] at h
  | cons kv rest ih =>
    intro old h
    obtain ⟨k, v⟩ := kv
    by_cases hk : k = key
    · subst hk
      simp [replaceEntry, lookupEntry]
    · simp only [replaceEntry, lookupEntry, if_neg hk] at h ⊢
      exact ih old h

/-- Setting an existing key of a parameter bag makes indexing return the new
value. -/
theorem getEntry_setEntry (dst : Params) (key : String) (nv old : Params)
    (h : getEntry dst key = some old) :
    getEntry (setEntry dst key nv) key = some nv := by
  cases dst with
  | scalar q => simp [getEntry] at h
  | group es => exact lookupEntry_replaceEntry key nv es old h

/-- Specification of `allocConsts`: appends `n` constant cells holding `v`,
leaves the vector heap alone and existing cells unchanged. -/
theorem allocConsts_spec (v : ℚ) :
    ∀ (n : Nat) (σ : Store),
      (allocConsts v n σ).1.vectors = σ.vectors
      ∧ ((allocConsts v n σ).2).length = n
      ∧ (allocConsts v n σ).1.constants.length = σ.constants.length + n
      ∧ (∀ k, k < σ.constants.length →
          (allocConsts v n σ).1.readConst k = σ.readConst k) := by
  intro n
  induction n with
  | zero => exact fun σ => ⟨rfl, rfl, rfl, fun k _ => rfl⟩
  | succ m ih =>
    intro σ
    obtain ⟨ihvec, ihlen, ihclen, ihold⟩ := ih (σ.allocConst v).1
    have hl : (σ.allocConst v).1.constants.length = σ.constants.length + 1 := by
      simp [Store.allocConst]
    refine ⟨?_, ?_, ?_, ?_⟩
    · simp only [allocConsts]
      exact ihvec.trans rfl
    · simp only [allocConsts, List.length_cons]
      rw [ihlen]
    · simp only [allocConsts]
      rw [ihclen, hl]
      omega
    · intro k hk
      simp only [allocConsts]
      rw [ihold k (by omega)]
      exact getD_append_left σ.constants [v] k 0 hk

/-- Specification of the slot-copying loop of `deepcopy`: it allocates one
fresh vector per listed slot, fills it with the source slot's values at the
loop's entry store, and neither touches pre-existing heap cells nor the
engine's other fields. -/
theorem copySlots_spec (P : Problem) (src : Engine) :
    ∀ (L : List Nat) (σ : Store) (sim : Engine),
      (copySlots P src L σ sim).1.constants = σ.constants
      ∧ σ.vectors.length ≤ (copySlots P src L σ sim).1.vectors.length
      ∧ (∀ k, k < σ.vectors.length →
          (copySlots P src L σ sim).1.readVec k = σ.readVec k)
      ∧ (copySlots P src L σ sim).2.timestep_sizes = sim.timestep_sizes
      ∧ (copySlots P src L σ sim).2.time_order = sim.time_order
      ∧ (copySlots P src L σ sim).2.solutions.length = sim.solutions.length
      ∧ (∀ j, j ∉ L →
          (copySlots P src L σ sim).2.solutions.getD j default
            = sim.solutions.getD j default)
      ∧ (L.Nodup →
          (∀ i ∈ L, i < sim.solutions.length
            ∧ (src.solutions.getD i default).vec < σ.vectors.length) →
          ∀ i ∈ L,
            σ.vectors.length
              ≤ ((copySlots P src L σ sim).2.solutions.getD i default).vec
            ∧ ((copySlots P src L σ sim).2.solutions.getD i default).vec
                < (copySlots P src L σ sim).1.vectors.length
            ∧ (copySlots P src L σ sim).1.readVec
                (((copySlots P src L σ sim).2.solutions.getD i default).vec)
                = σ.readVec ((src.solutions.getD i default).vec)) := by
  intro L
  induction L with
  | nil =>
    exact fun σ sim => ⟨rfl, le_refl _, fun k _ => rfl, rfl, rfl, rfl,
      fun j _ => rfl, fun _ _ i hi => absurd hi (by simp)⟩
  | cons i rest ih =>
    intro σ sim
    have hstep : copySlots P src (i :: rest) σ sim
        = copySlots P src rest
          ((σ.allocVec (zeros (P.dofCount sim.mesh))).1.writeVec
            (σ.allocVec (zeros (P.dofCount sim.mesh))).2
            ((σ.allocVec (zeros (P.dofCount sim.mesh))).1.readVec
              ((src.solutions.getD i default).vec)))
          { sim with
              solutions := sim.solutions.set i
                ⟨sim.function_space,
                  (σ.allocVec (zeros (P.dofCount sim.mesh))).2⟩,
              times := sim.times.set i (src.times.getD i 0) } := rfl
    obtain ⟨ihcon, ihle, ihold, ihdts, ihord, ihlen, ihframe, ihmem⟩ :=
      ih ((σ.allocVec (zeros (P.dofCount sim.mesh))).1.writeVec
            (σ.allocVec (zeros (P.dofCount sim.mesh))).2
            ((σ.allocVec (zeros (P.dofCount sim.mesh))).1.readVec
              ((src.solutions.getD i default).vec)))
          { sim with
              solutions := sim.solutions.set i
                ⟨sim.function_space,
                  (σ.allocVec (zeros (P.dofCount sim.mesh))).2⟩,
              times := sim.times.set i (src.times.getD i 0) }
    have hblen : ((σ.allocVec (zeros (P.dofCount sim.mesh))).1.writeVec
          (σ.allocVec (zeros (P.dofCount sim.mesh))).2
          ((σ.allocVec (zeros (P.dofCount sim.mesh))).1.readVec
            ((src.solutions.getD i default).vec))).vectors.length
        = σ.vectors.length + 1 := by
      simp [Store.writeVec, Store.allocVec]
    have hbold : ∀ k, k < σ.vectors.length →
        ((σ.allocVec (zeros (P.dofCount sim.mesh))).1.writeVec
          (σ.allocVec (zeros (P.dofCount sim.mesh))).2
          ((σ.allocVec (zeros (P.dofCount sim.mesh))).1.readVec
            ((src.solutions.getD i default).vec))).readVec k
        = σ.readVec k := by
      intro k hk
      have h1 : (σ.allocVec (zeros (P.dofCount sim.mesh))).2 ≠ k := by
        show σ.vectors.length ≠ k
        omega
      rw [readVec_writeVec_ne _ _ _ _ h1]
      exact readVec_allocVec_old σ _ k hk
    rw [hstep]
    refine ⟨by rw [ihcon]; rfl, ?_, ?_, by rw [ihdts], by rw [ihord],
      by rw [ihlen]; simp [List.length_set], ?_, ?_⟩
    · rw [hblen] at ihle
      omega
    · intro k hk
      rw [ihold k (by omega), hbold k hk]
    · intro j hj
      have hji : j ≠ i := fun hh => hj (hh ▸ List.mem_cons_self i rest)
      have hjr : j ∉ rest := fun hh => hj (List.mem_cons_of_mem i hh)
      rw [ihframe j hjr]
      show (sim.solutions.set i _).getD j default = _
      rw [getD_set_ne _ _ _ _ _ (Ne.symm hji)]
    · intro hnd hbounds i2 hi2
      have hndr : rest.Nodup := (List.nodup_cons.mp hnd).2
      have hinr : i ∉ rest := (List.nodup_cons.mp hnd).1
      have hboundsr : ∀ i3 ∈ rest,
          i3 < ({ sim with
              solutions := sim.solutions.set i
                ⟨sim.function_space,
                  (σ.allocVec (zeros (P.dofCount sim.mesh))).2⟩,
              times := sim.times.set i (src.times.getD i 0) }
                : Engine).solutions.length
          ∧ (src.solutions.getD i3 default).vec
              < ((σ.allocVec (zeros (P.dofCount sim.mesh))).1.writeVec
                  (σ.allocVec (zeros (P.dofCount sim.mesh))).2
                  ((σ.allocVec (zeros (P.dofCount sim.mesh))).1.readVec
                    ((src.solutions.getD i default).vec))).vectors.length := by
        intro i3 hi3
        obtain ⟨hb1, hb2⟩ := hbounds i3 (List.mem_cons_of_mem i hi3)
        refine ⟨by simpa [List.length_set] using hb1, ?_⟩
        rw [hblen]
        omega
      rcases List.mem_cons.mp hi2 with hii | hir
      · subst hii
        have hslot : (copySlots P src rest
              ((σ.allocVec (zeros (P.dofCount sim.mesh))).1.writeVec
                (σ.allocVec (zeros (P.dofCount sim.mesh))).2
                ((σ.allocVec (zeros (P.dofCount sim.mesh))).1.readVec
                  ((src.solutions.getD i2 default).vec)))
              { sim with
                  solutions := sim.solutions.set i2
                    ⟨sim.function_space,
                      (σ.allocVec (zeros (P.dofCount sim.mesh))).2⟩,
                  times := sim.times.set i2 (src.times.getD i2 0) }
            ).2.solutions.getD i2 default
            = ⟨sim.function_space,
                (σ.allocVec (zeros (P.dofCount sim.mesh))).2⟩ := by
          rw [ihframe i2 hinr]
          show (sim.solutions.set i2 _).getD i2 default = _
          exact getD_set_self _ _ _ _ (hbounds i2 (List.mem_cons_self i2 rest)).1
        rw [hslot]
        have hv : ((⟨sim.function_space,
            (σ.allocVec (zeros (P.dofCount sim.mesh))).2⟩ : FuncRef)).vec
            = σ.vectors.length := rfl
        rw [hv]
        refine ⟨le_refl _, ?_, ?_⟩
        · rw [hblen] at ihle
          omega
        · rw [ihold σ.vectors.length (by omega)]
          have hwr : ((σ.allocVec (zeros (P.dofCount sim.mesh))).1.writeVec
                (σ.allocVec (zeros (P.dofCount sim.mesh))).2
                ((σ.allocVec (zeros (P.dofCount sim.mesh))).1.readVec
                  ((src.solutions.getD i2 default).vec))).readVec
                σ.vectors.length
              = (σ.allocVec (zeros (P.dofCount sim.mesh))).1.readVec
                  ((src.solutions.getD i2 default).vec) := by
            exact readVec_writeVec_self _ _ _ (by
              simp [Store.allocVec])
          rw [hwr]
          exact readVec_allocVec_old σ _ _
            (hbounds i2 (List.mem_cons_self i2 rest)).2
      · obtain ⟨hm1, hm2, hm3⟩ := ihmem hndr hboundsr i2 hir
        refine ⟨?_, hm2, ?_⟩
        · rw [hblen] at hm1
          omega
        · rw [hm3]
          exact hbold _ (hbounds i2 (List.mem_cons_of_mem i hir)).2

/-- Facts about `__init__` needed for the `deepcopy` analysis: the heap only
grows (existing vector cells are untouched), and the engine's history lists
have the lengths dictated by the time order. -/
theorem init_spec (P : Problem) (t : Nat) (b : Bool) (σ : Store) :
    σ.vectors.length ≤ (init P t b σ).1.vectors.length
    ∧ (∀ k, k < σ.vectors.length → (init P t b σ).1.readVec k = σ.readVec k)
    ∧ (init P t b σ).2.solutions.length = t + 1
    ∧ (init P t b σ).2.timestep_sizes.length = t
    ∧ (init P t b σ).2.time_order = t
    ∧ (init P t b σ).2.solutions = (allocFuncs P.initialMesh
        (P.dofCount P.initialMesh) (t + 1) (allocConsts 1 t σ).1).2 := by
  obtain ⟨hcvec, hclen, hcclen, hcold⟩ := allocConsts_spec 1 t σ
  obtain ⟨hflen, hfcon, hfveclen, hfold, hfmem⟩ :=
    allocFuncs_spec P.initialMesh (P.dofCount P.initialMesh) (t + 1)
      (allocConsts 1 t σ).1
  have hσ1len : (allocConsts 1 t σ).1.vectors.length = σ.vectors.length := by
    rw [hcvec]
  have hstore : (init P t b σ).1
      = (((allocFuncs P.initialMesh (P.dofCount P.initialMesh) (t + 1)
          (allocConsts 1 t σ).1).1).allocVec
          (zeros (P.dofCount P.initialMesh))).1 := rfl
  have hsols : (init P t b σ).2.solutions
      = (allocFuncs P.initialMesh (P.dofCount P.initialMesh) (t + 1)
          (allocConsts 1 t σ).1).2 := by
    cases b <;> rfl
  have hdtseq : (init P t b σ).2.timestep_sizes = (allocConsts 1 t σ).2 := by
    cases b <;> rfl
  have hordeq : (init P t b σ).2.time_order = t := by
    cases b <;> rfl
  have hfinlen : (init P t b σ).1.vectors.length
      = (allocFuncs P.initialMesh (P.dofCount P.initialMesh) (t + 1)
          (allocConsts 1 t σ).1).1.vectors.length + 1 := by
    rw [hstore]
    simp [Store.allocVec]
  refine ⟨?_, ?_, ?_, ?_, hordeq, hsols⟩
  · rw [hfinlen, hfveclen]
    omega
  · intro k hk
    rw [hstore]
    have hk1 : k < (allocFuncs P.initialMesh (P.dofCount P.initialMesh) (t + 1)
        (allocConsts 1 t σ).1).1.vectors.length := by
      rw [hfveclen]
      omega
    rw [readVec_allocVec_old _ _ k hk1, hfold k (by omega)]
    show (allocConsts 1 t σ).1.vectors.getD k [] = σ.vectors.getD k []
    rw [hcvec]
  · rw [hsols, hflen]
  · rw [hdtseq, hclen]

/-! ## Structural lemmas about `solve` -/

/-- After any `solve` call, the engine's time list is the old one with slot 0
replaced by `t1 + dt0` (read at entry). -/
theorem solve_times_eq (P : Problem) (g : Option ℚ) (σ : Store) (e : Engine) :
    ((solve P g σ e).2.1).times
      = e.times.set 0 (e.times.getD 1 0 + σ.readConst (e.timestep_sizes.getD 0 0)) := by
  unfold solve
  cases hs : e.solver_needs_setup <;> cases g <;> simp only [hs] <;>
    (repeat' split) <;> rfl

/-- `solve` never rebinds the step-size slots. -/
theorem solve_timestep_sizes_eq (P : Problem) (g : Option ℚ) (σ : Store)
    (e : Engine) :
    ((solve P g σ e).2.1).timestep_sizes = e.timestep_sizes := by
  unfold solve
  cases hs : e.solver_needs_setup <;> cases g <;> simp only [hs] <;>
    (repeat' split) <;> rfl

/-- `solve` preserves the time order. -/
theorem solve_time_order_eq (P : Problem) (g : Option ℚ) (σ : Store)
    (e : Engine) :
    ((solve P g σ e).2.1).time_order = e.time_order := by
  unfold solve
  cases hs : e.solver_needs_setup <;> cases g <;> simp only [hs] <;>
    (repeat' split) <;> rfl

/-- `solve` never rebinds the solution functions. -/
theorem solve_solutions_eq (P : Problem) (g : Option ℚ) (σ : Store)
    (e : Engine) :
    ((solve P g σ e).2.1).solutions = e.solutions := by
  unfold solve
  cases hs : e.solver_needs_setup <;> cases g <;> simp only [hs] <;>
    (repeat' split) <;> rfl

/-- `solve` rebuilds exactly once when the solver is dirty and never
otherwise. -/
theorem solve_setup_count (P : Problem) (g : Option ℚ) (σ : Store)
    (e : Engine) :
    ((solve P g σ e).2.1).setup_count
      = (if e.solver_needs_setup then e.setup_count + 1 else e.setup_count) := by
  unfold solve
  cases hs : e.solver_needs_setup <;> cases g <;> simp only [hs] <;>
    (repeat' split) <;> rfl

/-- `solve` leaves `solver_status` untouched when the underlying solve (or the
parameter propagation) raises. -/
theorem solve_status_on_error (P : Problem) (g : Option ℚ) (σ : Store)
    (e : Engine) (er : PhErr) :
    (solve P g σ e).2.2 = .error er →
      ((solve P g σ e).2.1).solver_status = e.solver_status := by
  unfold solve
  cases hs : e.solver_needs_setup <;> cases g <;> simp only [hs] <;>
    (repeat' split) <;> intro h <;> first | rfl | simp at h

/-- `solve` writes no heap vector other than solution slot 0's. -/
theorem solve_store_frame (P : Problem) (g : Option ℚ) (σ : Store) (e : Engine)
    (j : Nat) (h : j ≠ (e.solutions.getD 0 default).vec) :
    (solve P g σ e).1.readVec j = σ.readVec j := by
  unfold solve
  cases hs : e.solver_needs_setup <;> cases g <;> simp only [hs] <;>
    (repeat' split) <;> first | rfl | exact readVec_writeVec_ne _ _ _ _ (Ne.symm h)

/-- `solve` writes no `fenics.Constant` cell. -/
theorem solve_constants_eq (P : Problem) (g : Option ℚ) (σ : Store)
    (e : Engine) :
    (solve P g σ e).1.constants = σ.constants := by
  unfold solve
  cases hs : e.solver_needs_setup <;> cases g <;> simp only [hs] <;>
    (repeat' split) <;> rfl

/-! ## Claim theorems -/

/-- C1: every call to `solve` (with or without a goal tolerance, and
whether or not it rebuilds or subsequently fails) sets the current time to the
previous time plus the step size in slot 0 at the time of the call, so after
`solve` the invariant `t0 == t1 + dt0` holds. -/
theorem solve_restores_time_invariant (P : Problem) (g : Option ℚ) (σ : Store)
    (e : Engine) (h : 0 < e.times.length) :
    ((solve P g σ e).2.1).times.getD 0 0
      = e.times.getD 1 0 + σ.readConst (e.timestep_sizes.getD 0 0)
    ∧ ((solve P g σ e).2.1).times.getD 0 0
      = ((solve P g σ e).2.1).times.getD 1 0
        + (solve P g σ e).1.readConst
            (((solve P g σ e).2.1).timestep_sizes.getD 0 0) := by
  have h0 := solve_times_eq P g σ e
  constructor
  · rw [h0]
    exact getD_set_self _ _ _ _ h
  · rw [h0, getD_set_self _ _ _ _ h, getD_set_ne _ _ _ _ _ (by omega),
      solve_timestep_sizes_eq]
    have hc : (solve P g σ e).1.readConst (e.timestep_sizes.getD 0 0)
        = σ.readConst (e.timestep_sizes.getD 0 0) := by
      unfold Store.readConst
      rw [solve_constants_eq]
    rw [hc]

theorem solve_restores_time_invariant_witness :
    ((solve demoProblem none σA2 engineA).2.1).times.getD 0 0
      = engineA.times.getD 1 0 + σA2.readConst (engineA.timestep_sizes.getD 0 0)
    ∧ ((solve demoProblem none σA2 engineA).2.1).times.getD 0 0
      = ((solve demoProblem none σA2 engineA).2.1).times.getD 1 0
        + (solve demoProblem none σA2 engineA).1.readConst
            (((solve demoProblem none σA2 engineA).2.1).timestep_sizes.getD 0 0) :=
  solve_restores_time_invariant demoProblem none σA2 engineA (by decide)

/-- C2: for every time order at least 3, computing the discrete time
derivative fails with the `NotImplementedError` standing for the spec's
`UnsupportedTimeOrder`; it never returns a derivative expression (and since
the default construction path runs `setup_solver`, whose governing-form
assembly is what evaluates these terms, the failure surfaces at construction
time). -/
theorem time_discrete_terms_unsupported_order (σ : Store) (e : Engine)
    (h : 3 ≤ e.time_order) :
    time_discrete_terms σ e = .error .notImplementedError := by
  unfold time_discrete_terms
  have h1 : ¬ e.time_order = 1 := by omega
  have h2 : ¬ e.time_order = 2 := by omega
  have h3 : 2 < e.time_order := by omega
  simp [h1, h2, h3]

theorem time_discrete_terms_unsupported_order_witness :
    time_discrete_terms initC3.1 initC3.2 = .error .notImplementedError :=
  time_discrete_terms_unsupported_order initC3.1 initC3.2 (by decide)

/-- C7 counterexample: after one successful `solve` (which sets
`solved := true`), a subsequent `solve` whose nonlinear solve raises leaves
`solver_status["solved"]` at `true` — the claim that `solved` is false after
a failed call regardless of earlier successes does not hold, because `solve`
never resets the flag. -/
theorem failed_solve_keeps_stale_solved_flag :
    solveB1.2.2 = .ok ⟨.count 2, true⟩
    ∧ (solve divergingProblem none solveB1.1 solveB1.2.1).2.2
        = .error .solverError
    ∧ ((solve divergingProblem none solveB1.1 solveB1.2.1).2.1
        ).solver_status.solved = true :=
  ⟨rfl, rfl, rfl⟩

/-- C7 amended: when the underlying solve (or the adaptive parameter
propagation) raises during `solve`, every solution slot other than the
current slot 0 is unmodified and `solver_status` is unchanged from before the
call — so `solved` remains false exactly when no earlier solve had succeeded,
and keeps a stale `true` otherwise. -/
theorem failed_solve_frame (P : Problem) (g : Option ℚ) (σ : Store)
    (e : Engine) (er : PhErr)
    (hfail : (solve P g σ e).2.2 = .error er) :
    ((solve P g σ e).2.1).solver_status = e.solver_status
    ∧ ((solve P g σ e).2.1).solutions = e.solutions
    ∧ ∀ i, i < e.solutions.length →
        (e.solutions.getD i default).vec ≠ (e.solutions.getD 0 default).vec →
        (solve P g σ e).1.readVec ((e.solutions.getD i default).vec)
          = σ.readVec ((e.solutions.getD i default).vec) :=
  ⟨solve_status_on_error P g σ e er hfail, solve_solutions_eq P g σ e,
    fun _ _ hne => solve_store_frame P g σ e _ hne⟩

theorem failed_solve_frame_witness :
    ((solve divergingProblem none solveB1.1 solveB1.2.1).2.1).solver_status
        = solveB1.2.1.solver_status
    ∧ ((solve divergingProblem none solveB1.1 solveB1.2.1).2.1).solutions
        = solveB1.2.1.solutions
    ∧ (solve divergingProblem none solveB1.1 solveB1.2.1).1.readVec
        ((solveB1.2.1.solutions.getD 1 default).vec)
        = solveB1.1.readVec ((solveB1.2.1.solutions.getD 1 default).vec) := by
  obtain ⟨h1, h2, h3⟩ := failed_solve_frame divergingProblem none solveB1.1
    solveB1.2.1 .solverError rfl
  exact ⟨h1, h2, h3 1 (by decide) (by decide)⟩

/-- C8: rebuilding twice in a row with no intervening mesh or element
change yields the same solver configuration as after the first rebuild: the
prior solver's parameter bag (and the prior adaptive solver's, when an
adaptive goal is defined) is copied into each newly constructed solver, and
the dirty flag is cleared on completion. -/
theorem setup_solver_idempotent_config (P : Problem) (e : Engine) :
    (setup_solver P (setup_solver P e)).solver = (setup_solver P e).solver
    ∧ (setup_solver P (setup_solver P e)).adaptive_solver
        = (setup_solver P e).adaptive_solver
    ∧ (setup_solver P (setup_solver P e)).solver_needs_setup = false
    ∧ (setup_solver P e).solver = some (e.solver.getD P.defaultSolverParams)
    ∧ (setup_solver P e).adaptive_solver
        = (if P.hasAdaptiveGoal then
            some (e.adaptive_solver.getD P.defaultAdaptiveParams)
          else e.adaptive_solver)
    ∧ (setup_solver P e).solver_needs_setup = false := by
  unfold setup_solver
  cases hP : P.hasAdaptiveGoal <;> cases e.solver <;> cases e.adaptive_solver <;>
    simp [Option.getD]

/-- C3: writing a checkpoint and reading it back into an engine of
matching time order (and the same problem's element) reproduces every
solution slot's coefficient values and every time value exactly (bit-for-bit
in this exact-rational model), through the matching `solution<i>`/`time<i>`
tags; the Newton guess is reallocated on the rebuilt function space and
`solver_needs_setup` ends false. -/
theorem checkpoint_roundtrip (P : Problem) (σ1 σ2 : Store) (e1 e2 : Engine)
    (horder : e2.time_order = e1.time_order)
    (hlen1 : e1.solutions.length = e1.time_order + 1)
    (hlen2 : e2.solutions.length = e2.time_order + 1)
    (hlen2t : e2.times.length = e2.time_order + 1) :
    ∃ σ3 e3,
      read_checkpoint P (write_checkpoint σ1 e1) σ2 e2 = .ok (σ3, e3)
      ∧ (∀ i, i < e1.time_order + 1 →
          σ3.readVec ((e3.solutions.getD i default).vec)
            = σ1.readVec ((e1.solutions.getD i default).vec)
          ∧ e3.times.getD i 0 = e1.times.getD i 0
          ∧ (e3.solutions.getD i default).space = e3.function_space)
      ∧ e3.function_space = (write_checkpoint σ1 e1).mesh
      ∧ e3.newton_solution.space = e3.function_space
      ∧ σ3.readVec e3.newton_solution.vec = zeros (P.dofCount e3.mesh)
      ∧ e3.solver_needs_setup = false := by
  have hreq : ∀ i ∈ List.range (e2.time_order + 1),
      i < ({ e2 with
               mesh := (write_checkpoint σ1 e1).mesh,
               function_space := (write_checkpoint σ1 e1).mesh }
            : Engine).solutions.length
      ∧ i < ({ e2 with
                 mesh := (write_checkpoint σ1 e1).mesh,
                 function_space := (write_checkpoint σ1 e1).mesh }
            : Engine).times.length
      ∧ findTag (write_checkpoint σ1 e1).datasets (solutionTag i)
          = some (σ1.readVec ((e1.solutions.getD i default).vec))
      ∧ findTag (write_checkpoint σ1 e1).datasets (timeTag i)
          = some [e1.times.getD i 0] := by
    intro i hi
    have hilt : i < e2.time_order + 1 := List.mem_range.mp hi
    have hilt1 : i < e1.solutions.length := by omega
    refine ⟨?_, ?_, ?_, ?_⟩
    · show i < e2.solutions.length
      omega
    · show i < e2.times.length
      omega
    · exact findTag_entries_solution σ1 e1 (List.range e1.solutions.length) i
        (List.mem_range.mpr hilt1)
    · exact findTag_entries_time σ1 e1 (List.range e1.solutions.length) i
        (List.mem_range.mpr hilt1)
  obtain ⟨σr, er, hrun, hle, hold, hcon, hordr, hmeshr, hfspr, hnewr, hslvr,
    hadpr, hdirtyr, hslenr, htlenr, hframer, hmemr⟩ :=
    readSlots_spec P (write_checkpoint σ1 e1)
      (fun i => σ1.readVec ((e1.solutions.getD i default).vec))
      (fun i => [e1.times.getD i 0])
      (List.range (e2.time_order + 1)) σ2
      { e2 with
          mesh := (write_checkpoint σ1 e1).mesh,
          function_space := (write_checkpoint σ1 e1).mesh }
      (List.nodup_range _) hreq
  refine ⟨(σr.allocVec (zeros (P.dofCount er.mesh))).1,
    setup_solver P
      { er with
          newton_solution :=
            ⟨er.function_space, (σr.allocVec (zeros (P.dofCount er.mesh))).2⟩ },
    ?_, ?_, ?_, ?_, ?_, ?_⟩
  · unfold read_checkpoint
    simp only []
    rw [hrun]
  · intro i hi
    have hi2 : i ∈ List.range (e2.time_order + 1) :=
      List.mem_range.mpr (by omega)
    obtain ⟨hm1, hm2, hm3, hm4⟩ := hmemr i hi2
    have hfsp2 : er.function_space = (write_checkpoint σ1 e1).mesh := hfspr
    refine ⟨?_, ?_, ?_⟩
    · show ((σr.allocVec (zeros (P.dofCount er.mesh))).1).readVec
          ((er.solutions.getD i default).vec) = _
      rw [readVec_allocVec_old _ _ _ hm2]
      exact hm3
    · show er.times.getD i 0 = e1.times.getD i 0
      rw [hm4]
      rfl
    · show (er.solutions.getD i default).space
          = (setup_solver P
              { er with
                  newton_solution :=
                    ⟨er.function_space,
                      (σr.allocVec (zeros (P.dofCount er.mesh))).2⟩
              }).function_space
      rw [hm1]
      exact hfsp2.symm ▸ hfsp2
  · show er.function_space = (write_checkpoint σ1 e1).mesh
    exact hfspr
  · show er.function_space
        = (setup_solver P
            { er with
                newton_solution :=
                  ⟨er.function_space,
                    (σr.allocVec (zeros (P.dofCount er.mesh))).2⟩
            }).function_space
    rfl
  · show ((σr.allocVec (zeros (P.dofCount er.mesh))).1).readVec
        ((σr.allocVec (zeros (P.dofCount er.mesh))).2)
        = zeros (P.dofCount er.mesh)
    exact readVec_allocVec_new σr _
  · exact setup_solver_clears_dirty P _

theorem checkpoint_roundtrip_witness :
    ∃ σ3 e3,
      read_checkpoint demoProblem (write_checkpoint σA2 engineA) σA engineA
          = .ok (σ3, e3)
      ∧ (∀ i, i < engineA.time_order + 1 →
          σ3.readVec ((e3.solutions.getD i default).vec)
            = σA2.readVec ((engineA.solutions.getD i default).vec)
          ∧ e3.times.getD i 0 = engineA.times.getD i 0
          ∧ (e3.solutions.getD i default).space = e3.function_space)
      ∧ e3.function_space = (write_checkpoint σA2 engineA).mesh
      ∧ e3.newton_solution.space = e3.function_space
      ∧ σ3.readVec e3.newton_solution.vec
          = zeros (demoProblem.dofCount e3.mesh)
      ∧ e3.solver_needs_setup = false :=
  checkpoint_roundtrip demoProblem σA2 σA engineA engineA rfl (by decide)
    (by decide) (by decide)

/-- C9: in the configuration copy of `share_solver_parameters`, a key
whose direct assignment succeeds leaves the destination holding the source's
value; a key whose direct assignment is rejected as a key mismatch makes the
copy recurse into the corresponding destination subgroup instead of failing;
and a key genuinely absent from the destination propagates as a fatal
`KeyError` rather than being silently skipped. -/
theorem share_solver_parameters_cases (dst : Params) (key : String)
    (v : Params) (rest : List (String × Params)) :
    (∀ dst2, trySet dst key v = some dst2 →
      share_solver_parameters dst (.group ((key, v) :: rest))
          = shareEntries dst2 rest
        ∧ getEntry dst2 key = some v)
    ∧ (trySet dst key v = none → ∀ sub, getEntry dst key = some sub →
        share_solver_parameters dst (.group ((key, v) :: rest))
          = (match share_solver_parameters sub v with
             | .error er => .error er
             | .ok sub2 => shareEntries (setEntry dst key sub2) rest))
    ∧ (trySet dst key v = none → getEntry dst key = none →
        share_solver_parameters dst (.group ((key, v) :: rest))
          = .error .keyError) := by
  refine ⟨?_, ?_, ?_⟩
  · intro dst2 ht
    constructor
    · show shareEntries dst ((key, v) :: rest) = _
      rw [shareEntries, ht]
    · cases v with
      | group es2 => simp [trySet] at ht
      | scalar q =>
        cases hg : getEntry dst key with
        | none => simp [trySet, hg] at ht
        | some p =>
          cases p with
          | group es3 => simp [trySet, hg] at ht
          | scalar q0 =>
            simp only [trySet, hg, Option.some.injEq] at ht
            subst ht
            exact getEntry_setEntry dst key _ _ hg
  · intro ht sub hg
    show shareEntries dst ((key, v) :: rest) = _
    rw [shareEntries, ht, hg]
  · intro ht hg
    show shareEntries dst ((key, v) :: rest) = _
    rw [shareEntries, ht, hg]

theorem share_solver_parameters_cases_witness :
    (share_solver_parameters demoParams
        (.group [(symmetricKey, Params.scalar 5)])
      = shareEntries demoParamsSet []
    ∧ getEntry demoParamsSet symmetricKey = some (Params.scalar 5))
    ∧ share_solver_parameters demoAdaptiveParams
        (.group [(nvSolverKey, demoParams)])
      = (match share_solver_parameters demoParams demoParams with
         | .error er => .error er
         | .ok sub2 =>
            shareEntries (setEntry demoAdaptiveParams nvSolverKey sub2) [])
    ∧ share_solver_parameters demoParams
        (.group [(missingKey, Params.scalar 1)])
      = .error .keyError := by
  refine ⟨?_, ?_, ?_⟩
  · exact (share_solver_parameters_cases demoParams symmetricKey
      (Params.scalar 5) []).1 demoParamsSet rfl
  · exact (share_solver_parameters_cases demoAdaptiveParams nvSolverKey
      demoParams []).2.1 rfl demoParams rfl
  · exact (share_solver_parameters_cases demoParams missingKey
      (Params.scalar 1) []).2.2 rfl rfl

/-- C6 counterexample: `deepcopy` aliases the step-size `Constant`
cells: the copy's `timestep_sizes` are the very same heap cells as the
original's, and advancing the copy (with `dt0 = 2`, `dt1 = 1`) overwrites the
original's `dt1` cell from 1 to 2 — refuting the claim that mutating the copy
leaves the original's step sizes unchanged. -/
theorem deepcopy_aliases_timestep_cells :
    copyC.timestep_sizes = engineA.timestep_sizes
    ∧ σD.readConst (engineA.timestep_sizes.getD 1 0) = 1
    ∧ (advance σD copyC).1.readConst (engineA.timestep_sizes.getD 1 0) = 2 :=
  ⟨rfl, rfl, rfl⟩

/-- C6 amended: the engine returned by `deepcopy` shares no mutable
solution state with the original — deepcopy leaves the original's solution
values untouched, copies them value-for-value into freshly allocated cells
disjoint from the original's, and advancing the copy leaves the original's
solution values (and, being record fields, its times) unchanged — but the
step-size slots are aliased: the copy's `timestep_sizes` list holds exactly
the original's `Constant` cell indices, so in-place step-size mutation (as in
`advance` at order above 1) is visible to the original. -/
theorem deepcopy_isolation_amended (P : Problem) (σ σ2 : Store) (e c : Engine)
    (sp : Params) (hes : e.solver = some sp)
    (hord : 1 ≤ e.time_order)
    (hsollen : e.solutions.length = e.time_order + 1)
    (hdtslen : e.timestep_sizes.length = e.time_order)
    (hbound : ∀ i, i < e.solutions.length →
      (e.solutions.getD i default).vec < σ.vectors.length)
    (h : deepcopy P σ e = .ok (σ2, c)) :
    c.timestep_sizes = e.timestep_sizes
    ∧ (∀ i, i < e.solutions.length →
        σ2.readVec ((e.solutions.getD i default).vec)
          = σ.readVec ((e.solutions.getD i default).vec))
    ∧ (∀ i, i < e.solutions.length →
        σ2.readVec ((c.solutions.getD i default).vec)
          = σ.readVec ((e.solutions.getD i default).vec))
    ∧ (∀ i, i < e.solutions.length → ∀ j, j < c.solutions.length →
        (c.solutions.getD j default).vec ≠ (e.solutions.getD i default).vec)
    ∧ (∀ i, i < e.solutions.length →
        (advance σ2 c).1.readVec ((e.solutions.getD i default).vec)
          = σ2.readVec ((e.solutions.getD i default).vec)) := by
  have hbig : deepcopy P σ e
      = .ok ((copySlots P e (List.range e.solutions.length)
              (init P e.time_order false σ).1
              { (init P e.time_order false σ).2 with
                  mesh := e.mesh, function_space := e.mesh }).1,
             { setup_solver P
                { (copySlots P e (List.range e.solutions.length)
                    (init P e.time_order false σ).1
                    { (init P e.time_order false σ).2 with
                        mesh := e.mesh, function_space := e.mesh }).2 with
                    timestep_sizes :=
                      (List.range e.timestep_sizes.length).foldl
                        (fun l i => l.set i (e.timestep_sizes.getD i 0))
                        (copySlots P e (List.range e.solutions.length)
                          (init P e.time_order false σ).1
                          { (init P e.time_order false σ).2 with
                              mesh := e.mesh, function_space := e.mesh
                          }).2.timestep_sizes } with
                solver := some sp }) := by
    unfold deepcopy
    rw [hes]
  rw [hbig] at h
  have hp := h
  rw [Except.ok.injEq, Prod.mk.injEq] at hp
  obtain ⟨hσ2, hc⟩ := hp
  obtain ⟨hile, hiold, hisols, hidts, hiord, _⟩ :=
    init_spec P e.time_order false σ
  obtain ⟨ccon, cle, cold, cdts, cord, clen, cframe, cmem⟩ :=
    copySlots_spec P e (List.range e.solutions.length)
      (init P e.time_order false σ).1
      { (init P e.time_order false σ).2 with
          mesh := e.mesh, function_space := e.mesh }
  have hsim0len : ({ (init P e.time_order false σ).2 with
      mesh := e.mesh, function_space := e.mesh } : Engine).solutions.length
      = e.solutions.length := by
    show (init P e.time_order false σ).2.solutions.length = _
    rw [hisols, hsollen]
  have hboundfn : ∀ i ∈ List.range e.solutions.length,
      i < ({ (init P e.time_order false σ).2 with
          mesh := e.mesh, function_space := e.mesh } : Engine).solutions.length
      ∧ (e.solutions.getD i default).vec
          < (init P e.time_order false σ).1.vectors.length := by
    intro i hi
    have hi2 := List.mem_range.mp hi
    exact ⟨by rw [hsim0len]; exact hi2, by
      have := hbound i hi2
      omega⟩
  have hclen2 : c.solutions.length = e.solutions.length := by
    rw [← hc]
    show (copySlots P e (List.range e.solutions.length)
        (init P e.time_order false σ).1
        { (init P e.time_order false σ).2 with
            mesh := e.mesh, function_space := e.mesh }).2.solutions.length = _
    rw [clen, hsim0len]
  have hcsols : c.solutions
      = (copySlots P e (List.range e.solutions.length)
          (init P e.time_order false σ).1
          { (init P e.time_order false σ).2 with
              mesh := e.mesh, function_space := e.mesh }).2.solutions := by
    rw [← hc]
    rfl
  have hcord2 : c.time_order = e.time_order := by
    rw [← hc]
    show (copySlots P e (List.range e.solutions.length)
        (init P e.time_order false σ).1
        { (init P e.time_order false σ).2 with
            mesh := e.mesh, function_space := e.mesh }).2.time_order = _
    rw [cord]
    show (init P e.time_order false σ).2.time_order = _
    rw [hiord]
  have hmem2 : ∀ i, i < e.solutions.length →
      (init P e.time_order false σ).1.vectors.length
        ≤ ((c.solutions.getD i default).vec)
      ∧ σ2.readVec ((c.solutions.getD i default).vec)
          = σ.readVec ((e.solutions.getD i default).vec) := by
    intro i hi
    obtain ⟨hm1, hm2, hm3⟩ := cmem (List.nodup_range _) hboundfn i
      (List.mem_range.mpr hi)
    rw [hcsols]
    refine ⟨hm1, ?_⟩
    rw [← hσ2, hm3, hiold _ (hbound i hi)]
  have hB : ∀ i, i < e.solutions.length →
      σ2.readVec ((e.solutions.getD i default).vec)
        = σ.readVec ((e.solutions.getD i default).vec) := by
    intro i hi
    rw [← hσ2, cold _ (by have := hbound i hi; omega),
      hiold _ (hbound i hi)]
  have hD : ∀ i, i < e.solutions.length → ∀ j, j < c.solutions.length →
      (c.solutions.getD j default).vec ≠ (e.solutions.getD i default).vec := by
    intro i hi j hj
    obtain ⟨hm1, _⟩ := hmem2 j (by omega)
    have hbi := hbound i hi
    omega
  refine ⟨?_, hB, fun i hi => (hmem2 i hi).2, hD, ?_⟩
  · rw [← hc]
    show (List.range e.timestep_sizes.length).foldl
        (fun l i => l.set i (e.timestep_sizes.getD i 0))
        (copySlots P e (List.range e.solutions.length)
          (init P e.time_order false σ).1
          { (init P e.time_order false σ).2 with
              mesh := e.mesh, function_space := e.mesh }).2.timestep_sizes
      = e.timestep_sizes
    obtain ⟨flen, fmem, fout⟩ := foldl_set_getD e.timestep_sizes
      (List.range e.timestep_sizes.length)
      (copySlots P e (List.range e.solutions.length)
        (init P e.time_order false σ).1
        { (init P e.time_order false σ).2 with
            mesh := e.mesh, function_space := e.mesh }).2.timestep_sizes
    have hbaselen : (copySlots P e (List.range e.solutions.length)
        (init P e.time_order false σ).1
        { (init P e.time_order false σ).2 with
            mesh := e.mesh, function_space := e.mesh
        }).2.timestep_sizes.length = e.timestep_sizes.length := by
      rw [cdts]
      show (init P e.time_order false σ).2.timestep_sizes.length = _
      rw [hidts, hdtslen]
    refine eq_of_getD _ _ 0 (by rw [flen, hbaselen]) ?_
    intro j hj
    rw [flen, hbaselen] at hj
    exact fmem j (List.mem_range.mpr hj) (by rw [hbaselen]; exact hj)
  · intro i hi
    have h1lt : 1 < c.solutions.length := by
      rw [hclen2, hsollen]
      omega
    by_cases hadv : 1 < c.time_order
    · have h2lt : 2 < c.solutions.length := by
        rw [hclen2, hsollen]
        rw [hcord2] at hadv
        omega
      simp only [advance, if_pos hadv]
      rw [readVec_writeVec_ne _ _ _ _ (hD i hi 1 h1lt), readVec_writeConst,
        readVec_writeVec_ne _ _ _ _ (hD i hi 2 h2lt)]
    · simp only [advance, if_neg hadv]
      rw [readVec_writeVec_ne _ _ _ _ (hD i hi 1 h1lt)]

theorem deepcopy_isolation_amended_witness :
    copyC.timestep_sizes = engineA.timestep_sizes
    ∧ (∀ i, i < engineA.solutions.length →
        σD.readVec ((engineA.solutions.getD i default).vec)
          = σC.readVec ((engineA.solutions.getD i default).vec))
    ∧ (∀ i, i < engineA.solutions.length →
        σD.readVec ((copyC.solutions.getD i default).vec)
          = σC.readVec ((engineA.solutions.getD i default).vec))
    ∧ (∀ i, i < engineA.solutions.length → ∀ j, j < copyC.solutions.length →
        (copyC.solutions.getD j default).vec
          ≠ (engineA.solutions.getD i default).vec)
    ∧ (∀ i, i < engineA.solutions.length →
        (advance σD copyC).1.readVec ((engineA.solutions.getD i default).vec)
          = σD.readVec ((engineA.solutions.getD i default).vec)) :=
  deepcopy_isolation_amended demoProblem σC σD engineA copyC demoParams rfl
    (by decide) (by decide) (by decide) (by decide) rfl

/-- C10: `advance` leaves the most-recent state untouched: the current
solution slot's values, the current time `t0` and the current step size `dt0`
are unchanged, so a caller may re-solve the same step afterwards. -/
theorem advance_preserves_current_slot (σ : Store) (e : Engine)
    (h01 : (e.solutions.getD 0 default).vec ≠ (e.solutions.getD 1 default).vec)
    (h02 : 1 < e.time_order →
      (e.solutions.getD 0 default).vec ≠ (e.solutions.getD 2 default).vec)
    (hdt : 1 < e.time_order →
      e.timestep_sizes.getD 0 0 ≠ e.timestep_sizes.getD 1 0) :
    (advance σ e).2.solutions = e.solutions
    ∧ (advance σ e).2.timestep_sizes = e.timestep_sizes
    ∧ (advance σ e).1.readVec ((e.solutions.getD 0 default).vec)
        = σ.readVec ((e.solutions.getD 0 default).vec)
    ∧ (advance σ e).2.times.getD 0 0 = e.times.getD 0 0
    ∧ (advance σ e).1.readConst (e.timestep_sizes.getD 0 0)
        = σ.readConst (e.timestep_sizes.getD 0 0) := by
  have hsol : (advance σ e).2.solutions = e.solutions := by
    by_cases h : 1 < e.time_order
    · simp only [advance, if_pos h]
    · simp only [advance, if_neg h]
  have hdts2 : (advance σ e).2.timestep_sizes = e.timestep_sizes := by
    by_cases h : 1 < e.time_order
    · simp only [advance, if_pos h]
    · simp only [advance, if_neg h]
  have hvec : (advance σ e).1.readVec ((e.solutions.getD 0 default).vec)
      = σ.readVec ((e.solutions.getD 0 default).vec) := by
    by_cases h : 1 < e.time_order
    · simp only [advance, if_pos h]
      rw [readVec_writeVec_ne _ _ _ _ (Ne.symm h01), readVec_writeConst,
        readVec_writeVec_ne _ _ _ _ (Ne.symm (h02 h))]
    · simp only [advance, if_neg h]
      rw [readVec_writeVec_ne _ _ _ _ (Ne.symm h01)]
  have htime : (advance σ e).2.times.getD 0 0 = e.times.getD 0 0 := by
    by_cases h : 1 < e.time_order
    · simp only [advance, if_pos h]
      rw [getD_set_ne _ 1 0 _ _ (by omega), getD_set_ne _ 2 0 _ _ (by omega)]
    · simp only [advance, if_neg h]
      rw [getD_set_ne _ 1 0 _ _ (by omega)]
  have hconst : (advance σ e).1.readConst (e.timestep_sizes.getD 0 0)
      = σ.readConst (e.timestep_sizes.getD 0 0) := by
    by_cases h : 1 < e.time_order
    · simp only [advance, if_pos h]
      rw [readConst_writeVec,
        readConst_writeConst_ne _ _ _ _ (Ne.symm (hdt h)), readConst_writeVec]
    · simp only [advance, if_neg h]
      rfl
  exact ⟨hsol, hdts2, hvec, htime, hconst⟩

theorem advance_preserves_current_slot_witness :
    (advance σA2 engineA).2.solutions = engineA.solutions
    ∧ (advance σA2 engineA).2.timestep_sizes = engineA.timestep_sizes
    ∧ (advance σA2 engineA).1.readVec ((engineA.solutions.getD 0 default).vec)
        = σA2.readVec ((engineA.solutions.getD 0 default).vec)
    ∧ (advance σA2 engineA).2.times.getD 0 0 = engineA.times.getD 0 0
    ∧ (advance σA2 engineA).1.readConst (engineA.timestep_sizes.getD 0 0)
        = σA2.readConst (engineA.timestep_sizes.getD 0 0) :=
  advance_preserves_current_slot σA2 engineA (by decide) (fun _ => by decide)
    (fun _ => by decide)

/-- C5: after assigning a new mesh, every solution-history slot is a fresh
zero-valued function on the newly built function space (values not migrated),
the dirty flag is set, and the next `solve` performs exactly one rebuild
before running the numerical solve. -/
theorem mesh_change_invariant (P : Problem) (m : Nat) (σ : Store) (e : Engine)
    (g : Option ℚ) :
    (set_mesh P m σ e).2.function_space = m
    ∧ (set_mesh P m σ e).2.solutions.length = e.solutions.length
    ∧ (∀ i, i < (set_mesh P m σ e).2.solutions.length →
        ((set_mesh P m σ e).2.solutions.getD i default).space = m
        ∧ (set_mesh P m σ e).1.readVec
            (((set_mesh P m σ e).2.solutions.getD i default).vec)
            = zeros (P.dofCount m))
    ∧ (set_mesh P m σ e).2.solver_needs_setup = true
    ∧ (solve P g (set_mesh P m σ e).1 (set_mesh P m σ e).2).2.1.setup_count
        = (set_mesh P m σ e).2.setup_count + 1 := by
  obtain ⟨hlen, hcon, hveclen, hold, hmem⟩ :=
    allocFuncs_spec m (P.dofCount m) e.solutions.length σ
  refine ⟨rfl, hlen, ?_, rfl, ?_⟩
  · intro i hi
    have hm : (set_mesh P m σ e).2.solutions.getD i default
        ∈ (allocFuncs m (P.dofCount m) e.solutions.length σ).2 :=
      getD_mem _ i default hi
    obtain ⟨hsp, _, _, hread⟩ := hmem _ hm
    exact ⟨hsp, hread⟩
  · rw [solve_setup_count]
    rfl

theorem mesh_change_invariant_witness :
    (set_mesh demoProblem 7 σA engineA).2.function_space = 7
    ∧ ((set_mesh demoProblem 7 σA engineA).2.solutions.getD 0 default).space = 7
    ∧ (set_mesh demoProblem 7 σA engineA).1.readVec
        (((set_mesh demoProblem 7 σA engineA).2.solutions.getD 0 default).vec)
        = zeros (demoProblem.dofCount 7)
    ∧ (set_mesh demoProblem 7 σA engineA).2.solver_needs_setup = true
    ∧ (solve demoProblem none (set_mesh demoProblem 7 σA engineA).1
        (set_mesh demoProblem 7 σA engineA).2).2.1.setup_count
        = (set_mesh demoProblem 7 σA engineA).2.setup_count + 1 := by
  obtain ⟨h1, h2, h3, h4, h5⟩ :=
    mesh_change_invariant demoProblem 7 σA engineA none
  obtain ⟨h6, h7⟩ := h3 0 (by decide)
  exact ⟨h1, h6, h7, h4, h5⟩

/-- C4: for an order-2 engine with all time slots initially 0, `solve`
with step size `1/2`, then `advance`, then `solve` with step size `1/2` again
yields the time history `[1, 1/2, 0]`; and in general `advance` shifts time
values, step size and solutions one slot back (`t2 ← t1`, `dt1 ← dt0` and
`solution2 ← solution1` when the order exceeds 1; always `t1 ← t0` and
`solution1 ← solution0`). -/
theorem advance_shifts_history (σ : Store) (e : Engine)
    (hord : 1 ≤ e.time_order)
    (hlen : e.times.length = e.time_order + 1)
    (h12 : 1 < e.time_order →
      (e.solutions.getD 1 default).vec ≠ (e.solutions.getD 2 default).vec)
    (h02 : 1 < e.time_order →
      (e.solutions.getD 0 default).vec ≠ (e.solutions.getD 2 default).vec)
    (hv1 : (e.solutions.getD 1 default).vec < σ.vectors.length)
    (hv2 : 1 < e.time_order →
      (e.solutions.getD 2 default).vec < σ.vectors.length)
    (hc1 : 1 < e.time_order → e.timestep_sizes.getD 1 0 < σ.constants.length) :
    c4step2.2.1.times = [1, 1/2, 0]
    ∧ (advance σ e).2.times.getD 1 0 = e.times.getD 0 0
    ∧ (1 < e.time_order → (advance σ e).2.times.getD 2 0 = e.times.getD 1 0)
    ∧ (1 < e.time_order →
        (advance σ e).1.readConst (e.timestep_sizes.getD 1 0)
          = σ.readConst (e.timestep_sizes.getD 0 0))
    ∧ (advance σ e).1.readVec ((e.solutions.getD 1 default).vec)
        = σ.readVec ((e.solutions.getD 0 default).vec)
    ∧ (1 < e.time_order →
        (advance σ e).1.readVec ((e.solutions.getD 2 default).vec)
          = σ.readVec ((e.solutions.getD 1 default).vec)) := by
  have hstep1 : c4step1.2.1.times = [1/2, 0, 0] := by
    have h0 := solve_times_eq demoProblem none σA2 engineA
    have hA : engineA.times = [(0 : ℚ), 0, 0] := rfl
    have hA2 : σA2.readConst (engineA.timestep_sizes.getD 0 0) = 1/2 := rfl
    show (solve demoProblem none σA2 engineA).2.1.times = _
    rw [h0, hA, hA2]
    norm_num
  have hgt : 1 < c4step1.2.1.time_order := by
    show 1 < (solve demoProblem none σA2 engineA).2.1.time_order
    rw [solve_time_order_eq]
    decide
  have hadv : c4adv.2.times = [1/2, 1/2, 0] := by
    show (advance c4step1.1 c4step1.2.1).2.times = _
    simp only [advance, if_pos hgt]
    rw [hstep1]
    rfl
  have hdt2 : c4adv.1.readConst (c4adv.2.timestep_sizes.getD 0 0) = 1/2 := by
    rfl
  have hscen : c4step2.2.1.times = [1, 1/2, 0] := by
    have h0 := solve_times_eq demoProblem none c4adv.1 c4adv.2
    show (solve demoProblem none c4adv.1 c4adv.2).2.1.times = _
    rw [h0, hdt2, hadv]
    norm_num
  refine ⟨hscen, ?_⟩
  have ha : (advance σ e).2.times.getD 1 0 = e.times.getD 0 0 := by
    by_cases h : 1 < e.time_order
    · simp only [advance, if_pos h]
      rw [getD_set_self _ 1 _ _ (by rw [List.length_set]; omega),
        getD_set_ne _ 2 0 _ _ (by omega)]
    · simp only [advance, if_neg h]
      rw [getD_set_self _ 1 _ _ (by omega)]
  have hb : 1 < e.time_order →
      (advance σ e).2.times.getD 2 0 = e.times.getD 1 0 := by
    intro h
    simp only [advance, if_pos h]
    rw [getD_set_ne _ 1 2 _ _ (by omega), getD_set_self _ 2 _ _ (by omega)]
  have hc : 1 < e.time_order →
      (advance σ e).1.readConst (e.timestep_sizes.getD 1 0)
        = σ.readConst (e.timestep_sizes.getD 0 0) := by
    intro h
    simp only [advance, if_pos h]
    rw [readConst_writeVec,
      readConst_writeConst_self _ _ _ (by simpa [Store.writeVec] using hc1 h)]
    rw [readConst_writeVec]
  have hd : (advance σ e).1.readVec ((e.solutions.getD 1 default).vec)
      = σ.readVec ((e.solutions.getD 0 default).vec) := by
    by_cases h : 1 < e.time_order
    · simp only [advance, if_pos h]
      rw [readVec_writeVec_self _ _ _ (by
        simpa [Store.writeConst, Store.writeVec, List.length_set] using hv1)]
      rw [readVec_writeConst, readVec_writeVec_ne _ _ _ _ (Ne.symm (h02 h))]
    · simp only [advance, if_neg h]
      rw [readVec_writeVec_self _ _ _ hv1]
  have he : 1 < e.time_order →
      (advance σ e).1.readVec ((e.solutions.getD 2 default).vec)
        = σ.readVec ((e.solutions.getD 1 default).vec) := by
    intro h
    simp only [advance, if_pos h]
    rw [readVec_writeVec_ne _ _ _ _ (h12 h), readVec_writeConst,
      readVec_writeVec_self _ _ _ (hv2 h)]
  exact ⟨ha, hb, hc, hd, he⟩

theorem advance_shifts_history_witness :
    c4step2.2.1.times = [1, 1/2, 0]
    ∧ (advance σA2 engineA).2.times.getD 1 0 = engineA.times.getD 0 0
    ∧ (1 < engineA.time_order →
        (advance σA2 engineA).2.times.getD 2 0 = engineA.times.getD 1 0)
    ∧ (1 < engineA.time_order →
        (advance σA2 engineA).1.readConst (engineA.timestep_sizes.getD 1 0)
          = σA2.readConst (engineA.timestep_sizes.getD 0 0))
    ∧ (advance σA2 engineA).1.readVec ((engineA.solutions.getD 1 default).vec)
        = σA2.readVec ((engineA.solutions.getD 0 default).vec)
    ∧ (1 < engineA.time_order →
        (advance σA2 engineA).1.readVec ((engineA.solutions.getD 2 default).vec)
          = σA2.readVec ((engineA.solutions.getD 1 default).vec)) :=
  advance_shifts_history σA2 engineA (by decide) (by decide) (fun _ => by decide)
    (fun _ => by decide) (by decide) (fun _ => by decide) (fun _ => by decide)

end Phaseflow
